import Mathlib

/-!
Verification development for the Sentinel-Gatekeeper analysis engine.

The Python endpoint `analyze_code` (src/app/main.py) is embedded shallowly:

* the fragment of the Python AST that the extractor inspects is the
  mutual inductive `SG.Stmt` / `SG.Expr` below (function definitions with
  decorator lists, expression statements, calls, attribute accesses,
  names and string constants);
* `ast.walk` (a breadth-first traversal using a FIFO queue) is `SG.walk`;
* the route/call extraction loop (main.py lines 106-127) is
  `SG.extractLoop`; the graph construction (lines 129-145) is
  `SG.buildGraph`; the scanner wrapper `run_security_scan`
  (lines 34-81) is `SG.run_security_scan`; the correlation loop
  (lines 150-184) is `SG.correlate`; the endpoint itself is
  `SG.analyzeCode`.

Conventions: Python strings are Lean `String`s, `str.startswith` is
`SG.strStarts`, the Python substring test `in` is `SG.pyIn`, `str.lower`
is `SG.pyLower`.  The timestamp prefix that `log` puts in front of every
log line is presentation-only wall-clock data and is omitted; log
entries are the message strings.  A Python run that raises an unhandled
exception (the extractor evaluates `decorator.args[0].value`, which
raises `AttributeError` when the first decorator argument is not a
string literal) is modelled as `none`.  External effects consumed by
`run_security_scan` (scanner binaries being on `PATH`, the JSON files
the scanners leave behind) are an explicit input `SG.ScanEnv`.

The structural sink-graph engine (class `VulnerabilityVisitor`) is
imported by src/test_engine.py from app.main but is not part of
src/app/main.py; it is modelled from the spec (sections 4.1-4.3) in the
second half of this file, in the definitions whose doc comments start
with `Modelled from the spec`.
-/

namespace SG

mutual

/-- Fragment of the Python statement AST visited by the extractor:
`ast.FunctionDef` (fields in CPython order `name`, `body`,
`decorator_list`; the unused `args`/`returns` fields are omitted) and
expression statements. -/
inductive Stmt where
  | functionDef (name : String) (body : List Stmt) (decoratorList : List Expr) : Stmt
  | exprStmt (value : Expr) : Stmt

/-- Fragment of the Python expression AST: `ast.Call` (func, args),
`ast.Attribute` (value, attr), `ast.Name`, `ast.Constant` holding a
string. -/
inductive Expr where
  | call (func : Expr) (args : List Expr) : Expr
  | attr (value : Expr) (attrName : String) : Expr
  | name (id : String) : Expr
  | constant (value : String) : Expr

end

/-- A node of the walked tree: the module root, a statement or an
expression. -/
inductive Node where
  | module (body : List Stmt) : Node
  | stmt (s : Stmt) : Node
  | expr (e : Expr) : Node

/-- Child nodes in CPython field order (`ast.iter_child_nodes`); for a
`FunctionDef` the body statements come before the decorator list. -/
def Node.children : Node → List Node
  | .module body => body.map Node.stmt
  | .stmt (.functionDef _ body decs) => body.map Node.stmt ++ decs.map Node.expr
  | .stmt (.exprStmt e) => [.expr e]
  | .expr (.call f args) => .expr f :: args.map Node.expr
  | .expr (.attr v _) => [.expr v]
  | .expr (.name _) => []
  | .expr (.constant _) => []

end SG

mutual

/-- Number of AST nodes in a statement subtree (the statement itself,
its expressions, and its nested statements). -/
def SG.stmtSize : SG.Stmt → Nat
  | .functionDef _ body decs => 1 + SG.stmtListSize body + SG.exprListSize decs
  | .exprStmt e => 1 + SG.exprSize e

/-- Total node count of a list of statements. -/
def SG.stmtListSize : List SG.Stmt → Nat
  | [] => 0
  | s :: l => SG.stmtSize s + SG.stmtListSize l

/-- Number of AST nodes in an expression subtree. -/
def SG.exprSize : SG.Expr → Nat
  | .call f args => 1 + SG.exprSize f + SG.exprListSize args
  | .attr v _ => 1 + SG.exprSize v
  | .name _ => 1
  | .constant _ => 1

/-- Total node count of a list of expressions. -/
def SG.exprListSize : List SG.Expr → Nat
  | [] => 0
  | e :: l => SG.exprSize e + SG.exprListSize l

end

namespace SG

/-- Node count of a walk node. -/
def nodeSize : Node → Nat
  | .module body => 1 + stmtListSize body
  | .stmt s => stmtSize s
  | .expr e => exprSize e

/-- Total node count of a queue of walk nodes; used as (sufficient) fuel
for the breadth-first walk, since each dequeue replaces a node by its
children, whose total count is one less than the node's count. -/
def queueSize (q : List Node) : Nat := (q.map nodeSize).sum

/-- Fuel-indexed breadth-first traversal: dequeue a node, emit it,
enqueue its children at the back — exactly the deque discipline of
`ast.walk`. -/
def walkQ : Nat → List Node → List Node
  | _, [] => []
  | 0, _ :: _ => []
  | fuel + 1, n :: rest => n :: walkQ fuel (rest ++ n.children)

/-- `ast.walk`: breadth-first listing of all nodes of a tree.  The fuel
`queueSize q` is sufficient: `walk_cons` below proves the fuel-free
unfolding, so no node is ever dropped. -/
def walk (q : List Node) : List Node := walkQ (queueSize q) q

end SG

namespace SG

/-- Character-list prefix test used to model Python `str.startswith`. -/
def hasPrefixL : List Char → List Char → Bool
  | [], _ => true
  | _ :: _, [] => false
  | p :: ps, c :: cs => p == c && hasPrefixL ps cs

/-- Python `s.startswith(pre)`. -/
def strStarts (s pre : String) : Bool := hasPrefixL pre.data s.data

/-- Character-list substring test. -/
def hasSubL (needle : List Char) : List Char → Bool
  | [] => hasPrefixL needle []
  | c :: cs => hasPrefixL needle (c :: cs) || hasSubL needle cs

/-- Python `needle in hay` on strings (substring containment). -/
def pyIn (needle hay : String) : Bool := hasSubL needle.data hay.data

/-- Python `s.lower()` (ASCII case folding suffices for the identifiers
compared by the engine). -/
def pyLower (s : String) : String := ⟨s.data.map Char.toLower⟩

/-- Value of the per-function extraction, main.py line 124:
`functions[node.name] = {"is_route": ..., "path": ..., "calls": ...}`. -/
structure FuncInfo where
  isRoute : Bool
  path : String
  calls : List String
  deriving DecidableEq, Repr

/-- The Python dict `functions`, as an association list with Python's
update semantics (insertion order kept, assignment overwrites in place). -/
abbrev FMap := List (String × FuncInfo)

/-- Dict assignment `functions[k] = v`. -/
def dictSet (m : FMap) (k : String) (v : FuncInfo) : FMap :=
  match m with
  | [] => [(k, v)]
  | (k', v') :: rest => if k' = k then (k, v) :: rest else (k', v') :: dictSet rest k v

/-- Dict lookup `functions[k]`. -/
def dictGet (m : FMap) (k : String) : Option FuncInfo :=
  match m with
  | [] => none
  | (k', v') :: rest => if k' = k then some v' else dictGet rest k

/-- Dict lookup with a default; `analyze_code` only looks up keys of
`routes`, all of which were assigned, so the default is never read. -/
def dictGetD (m : FMap) (k : String) : FuncInfo :=
  (dictGet m k).getD ⟨false, "", []⟩

/-- Decorator scan of main.py lines 108-115: a decorator that is a
`Call` whose func has an `attr` field in `['get','post','put','delete']`
marks the function as a route, and when it has arguments the first
argument's `.value` becomes the route path.  A non-`Constant` first
argument has no `.value`, which raises `AttributeError`: that run is
`none`. -/
def scanDecorators : List Expr → Bool → String → Option (Bool × String)
  | [], isR, path => some (isR, path)
  | d :: rest, isR, path =>
    match d with
    | .call (.attr _ a) args =>
      if a ∈ ["get", "post", "put", "delete"] then
        match args with
        | [] => scanDecorators rest true path
        | .constant v :: _ => scanDecorators rest true v
        | _ :: _ => none
      else scanDecorators rest isR path
    | _ => scanDecorators rest isR path

/-- Call collection of main.py lines 117-122: every `Call` node in
`ast.walk(node)` whose func is an `Attribute` contributes that
attribute name, in walk order.  `node` is the `FunctionDef` itself, so
calls inside nested function definitions (and inside decorators) are
collected too. -/
def collectCalls (name : String) (body : List Stmt) (decs : List Expr) : List String :=
  (walk [Node.stmt (.functionDef name body decs)]).filterMap fun n =>
    match n with
    | .expr (.call (.attr _ a) _) => some a
    | _ => none

/-- The `for node in ast.walk(tree)` loop of main.py lines 106-127 over
an explicit list of walk nodes, threading `routes`, `functions` and the
log buffer. -/
def extractLoop : List Node → List String → FMap → List String →
    Option (List String × FMap × List String)
  | [], routes, functions, logs => some (routes, functions, logs)
  | .stmt (.functionDef name body decs) :: rest, routes, functions, logs =>
    match scanDecorators decs false "" with
    | none => none
    | some (isR, path) =>
      let functions' := dictSet functions name ⟨isR, path, collectCalls name body decs⟩
      if isR then
        extractLoop rest (routes ++ [name]) functions'
          (logs ++ ["DEBUG: Found Route " ++ path ++ " -> " ++ name])
      else
        extractLoop rest routes functions' logs
  | _ :: rest, routes, functions, logs => extractLoop rest routes functions logs

/-- Extraction phase of `analyze_code` on a parsed module body. -/
def extractFn (body : List Stmt) (logs : List String) :
    Option (List String × FMap × List String) :=
  extractLoop (walk [Node.module body]) [] [] logs

/-- A node of the JSON graph returned by `analyze_code`
(`{"data": {"id": ..., "color": ..., "label": ...}}`). -/
structure GNode where
  id : String
  color : String
  label : String
  deriving DecidableEq, Repr

/-- An edge of the JSON graph (`{"data": {"source": ..., "target": ...}}`). -/
structure GEdge where
  source : String
  target : String
  deriving DecidableEq, Repr

/-- Accumulator of the graph-construction loop. -/
structure GBuild where
  nodes : List GNode
  edges : List GEdge
  logs : List String
  deriving DecidableEq, Repr

/-- Graph-construction loop of main.py lines 134-145: one node per route
function; an `INTERNET -> function` edge exactly when the route path
starts with neither "/admin" nor "/internal". -/
def buildGraphLoop (functions : FMap) : List String → GBuild → GBuild
  | [], acc => acc
  | r :: rest, acc =>
    let path := (dictGetD functions r).path
    let isPublic := !(strStarts path "/admin" || strStarts path "/internal")
    let nodeColor := if !isPublic then "#00C851" else "#ffbb33"
    let acc' :=
      if isPublic then
        { nodes := acc.nodes ++ [⟨r, nodeColor, path⟩]
          edges := acc.edges ++ [⟨"INTERNET", r⟩]
          logs := acc.logs ++ ["GRAPH: Edge added Internet -> " ++ path] }
      else
        { nodes := acc.nodes ++ [⟨r, nodeColor, path⟩]
          edges := acc.edges
          logs := acc.logs ++ ["GRAPH: " ++ path ++ " is internal (No edge from Internet)"] }
    buildGraphLoop functions rest acc'

/-- Graph construction of main.py lines 129-145, starting from the
single INTERNET node. -/
def buildGraph (routes : List String) (functions : FMap) (logs : List String) : GBuild :=
  buildGraphLoop functions routes ⟨[⟨"INTERNET", "#00d2ff", "Internet"⟩], [], logs⟩

/-- A record appended by the Trivy branch of `run_security_scan`
(fields read from the Trivy JSON report). -/
structure TrivyVuln where
  id : String
  severity : String
  pkg_name : String
  description : String
  deriving DecidableEq, Repr

/-- A record appended by the Semgrep branch of `run_security_scan`
(fields read from the Semgrep JSON report). -/
structure SemgrepVuln where
  check_id : String
  severity : String
  line : Nat
  lines : String
  deriving DecidableEq, Repr

/-- A finding dict as consumed by the correlation loop.  `pkg_name` is
present only on Trivy findings and `file`/`line`/`code_snippet` only on
Semgrep findings; the correlation loop reads `pkg_name` only after
checking `source == 'Trivy'`, so carrying both with defaults is
faithful. -/
structure Finding where
  source : String
  id : String
  severity : String
  pkg_name : String
  description : String
  file : String
  line : Nat
  code_snippet : String
  deriving DecidableEq, Repr

/-- The Trivy record as appended at main.py lines 47-53. -/
def trivyFinding (v : TrivyVuln) : Finding :=
  ⟨"Trivy", v.id, v.severity, v.pkg_name, v.description, "", 0, ""⟩

/-- The Semgrep record as appended at main.py lines 68-75. -/
def semgrepFinding (r : SemgrepVuln) : Finding :=
  ⟨"Semgrep", r.check_id, r.severity, "", "", "main.py", r.line, r.lines⟩

/-- External state consumed by `run_security_scan`: which scanner
binaries `shutil.which` finds, the records each scanner's JSON report
yields (those appended before any exception), and whether report
parsing ran to completion. -/
structure ScanEnv where
  trivyInstalled : Bool
  trivyVulns : List TrivyVuln
  trivyOk : Bool
  trivyErr : String
  semgrepInstalled : Bool
  semgrepVulns : List SemgrepVuln
  semgrepOk : Bool
  semgrepErr : String
  deriving DecidableEq, Repr

/-- The findings list built by `run_security_scan` (main.py lines
35-81): Trivy records (only when requirements.txt is non-empty and
trivy is installed) followed by Semgrep records (only when semgrep is
installed). -/
def scanFindings (requirements : String) (env : ScanEnv) : List Finding :=
  (if requirements.length > 0 then
    if env.trivyInstalled then env.trivyVulns.map trivyFinding else []
   else []) ++
  (if env.semgrepInstalled then env.semgrepVulns.map semgrepFinding else [])

/-- The log entries appended by `run_security_scan`, in order.  Note
that when semgrep is not installed the `if shutil.which("semgrep")`
block (lines 61-79) is skipped silently: no warning is appended, unlike
the Trivy branch's `WARN: Trivy not installed.`. -/
def scanLogEntries (requirements : String) (env : ScanEnv) : List String :=
  ["INFO: Initializing Trivy (Dependency Scanner)..."] ++
  (if requirements.length > 0 then
    if env.trivyInstalled then
      (if env.trivyOk then ["SUCCESS: Trivy found potential vulnerabilities."]
       else ["ERROR: Trivy failed to parse results: " ++ env.trivyErr])
    else ["WARN: Trivy not installed."]
   else []) ++
  ["INFO: Initializing Semgrep (SAST Scanner)..."] ++
  (if env.semgrepInstalled then
    (if env.semgrepOk then
      ["SUCCESS: Semgrep analysis complete. " ++ toString env.semgrepVulns.length ++ " issues found."]
     else ["ERROR: Semgrep failed: " ++ env.semgrepErr])
   else [])

/-- `run_security_scan(log_buffer)` of main.py lines 34-81: returns the
findings list and appends its log entries to the buffer.
`requirements` is the text written to requirements.txt by the request;
the guard `os.path.exists(...) and os.path.getsize(...) > 0` is its
non-emptiness. -/
def run_security_scan (requirements : String) (env : ScanEnv) (log_buffer : List String) :
    List Finding × List String :=
  (scanFindings requirements env, log_buffer ++ scanLogEntries requirements env)

/-- State threaded through the correlation loop: the per-finding
`status` and `reason` locals, the `deployment_blocked` flag and the log
buffer. -/
structure CorrState where
  status : String
  reason : String
  blocked : Bool
  logs : List String
  deriving DecidableEq, Repr

/-- One vulnerability entry of the response
(`{"id": ..., "status": ..., "reason": ...}`). -/
structure CorrResult where
  id : String
  status : String
  reason : String
  deriving DecidableEq, Repr

/-- Inner route loop of the Semgrep branch, main.py lines 161-168:
routes whose path starts with neither "/admin" nor "/internal" and
whose function's calls contain "load" set BLOCK. -/
def semgrepRouteLoop (functions : FMap) : List String → CorrState → CorrState
  | [], st => st
  | r :: rest, st =>
    let path := (dictGetD functions r).path
    let st' :=
      if !(strStarts path "/admin" || strStarts path "/internal") then
        if (dictGetD functions r).calls.contains "load" then
          { status := "BLOCK"
            reason := "CRITICAL: " ++ path ++ " is PUBLIC and executes Vulnerable Code!"
            blocked := true
            logs := st.logs ++
              ["ALERT: BLOCKING DEPLOYMENT. Exploit path found: Internet -> " ++ path] }
        else st
      else st
    semgrepRouteLoop functions rest st'

/-- Inner route loop of the Trivy branch, main.py lines 171-178.  Note
the visibility test here checks only `path.startswith("/admin")` — the
"/internal" prefix is not excluded, unlike line 136 and line 163. -/
def trivyRouteLoop (functions : FMap) (pkg : String) : List String → CorrState → CorrState
  | [], st => st
  | r :: rest, st =>
    let path := (dictGetD functions r).path
    let st' :=
      if !(strStarts path "/admin") then
        if (dictGetD functions r).calls.contains "load" then
          { status := "BLOCK"
            reason := "CRITICAL: Vulnerable Library " ++ pkg ++ " is used in PUBLIC route!"
            blocked := true
            logs := st.logs ++ ["ALERT: BLOCKING DEPLOYMENT. Vulnerable lib used in public route."] }
        else st
      else st
    trivyRouteLoop functions pkg rest st'

/-- Body of the `for v in raw_vulns` loop (main.py lines 155-184) for a
single finding: `status`/`reason` start afresh, then the Semgrep branch
(id contains "yaml" or "deserialize", case-insensitive) and the Trivy
branch (pkg_name contains "yaml", case-insensitive) run over the
routes.  Returns the appended result row and the updated state. -/
def processFinding (routes : List String) (functions : FMap) (v : Finding)
    (st : CorrState) : CorrResult × CorrState :=
  let st0 : CorrState :=
    { status := "ALLOW", reason := "Not Reachable from Internet"
      blocked := st.blocked, logs := st.logs }
  let st1 :=
    if v.source == "Semgrep" &&
        (pyIn "yaml" (pyLower v.id) || pyIn "deserialize" (pyLower v.id)) then
      semgrepRouteLoop functions routes st0
    else st0
  let st2 :=
    if v.source == "Trivy" && pyIn "yaml" (pyLower v.pkg_name) then
      trivyRouteLoop functions v.pkg_name routes st1
    else st1
  (⟨v.id, st2.status, st2.reason⟩, st2)

/-- The correlation loop of main.py lines 150-184: fold `processFinding`
over the findings, accumulating the `final_results` rows and threading
`deployment_blocked` and the log buffer. -/
def correlate (routes : List String) (functions : FMap) :
    List Finding → CorrState → List CorrResult × CorrState
  | [], st => ([], st)
  | v :: rest, st =>
    let (row, st') := processFinding routes functions v st
    let (rows, st'') := correlate routes functions rest st'
    (row :: rows, st'')

/-- The successful JSON response of `analyze_code` (main.py lines
188-193). -/
structure OkResponse where
  graph_nodes : List GNode
  graph_edges : List GEdge
  vulnerabilities : List CorrResult
  decision : String
  logs : List String
  deriving DecidableEq, Repr

/-- A response of `analyze_code`: either the parse-failure payload
`{"error": ..., "logs": ...}` (main.py line 101) or the full result. -/
inductive Response where
  | error (e : String) (logs : List String) : Response
  | ok (r : OkResponse) : Response
  deriving DecidableEq, Repr

/-- Decision carried by a response.  The parse-failure payload carries
no `decision` field (and no graph); it is the ERROR outcome of the
spec's `AnalyzeSource` interface, distinct from "ALLOW" and "BLOCK". -/
def Response.decision : Response → String
  | .error _ _ => "ERROR"
  | .ok r => r.decision

/-- Graph nodes carried by a response; the parse-failure payload has
none. -/
def Response.graphNodes : Response → List GNode
  | .error _ _ => []
  | .ok r => r.graph_nodes

/-- Graph edges carried by a response; the parse-failure payload has
none. -/
def Response.graphEdges : Response → List GEdge
  | .error _ _ => []
  | .ok r => r.graph_edges

/-- Log lines carried by a response. -/
def Response.logs : Response → List String
  | .error _ lg => lg
  | .ok r => r.logs

/-- Decision of an endpoint run, `none` when the run raised. -/
def respDecision (o : Option Response) : Option String := o.map Response.decision

/-- Result of `ast.parse`: a module body, or a `SyntaxError` message. -/
inductive ParseResult where
  | ok (body : List Stmt) : ParseResult
  | syntaxError (msg : String) : ParseResult

/-- The three log entries that precede parsing (main.py lines 86-96). -/
def startLogs : List String :=
  ["START: Received analysis request.",
   "INFO: Source files saved to container.",
   "INFO: Building Abstract Syntax Tree (AST)..."]

/-- Post-extraction pipeline of `analyze_code` (main.py lines 129-193):
graph construction, scanner run, correlation, and assembly of the
successful response. -/
def analyzeOk (routes : List String) (functions : FMap) (logs1 : List String)
    (requirements : String) (env : ScanEnv) : OkResponse :=
  let gb := buildGraph routes functions (logs1 ++ ["INFO: constructing Context Graph..."])
  let scanned := run_security_scan requirements env gb.logs
  let corr := correlate routes functions scanned.1
    ⟨"ALLOW", "Not Reachable from Internet", false,
     scanned.2 ++ ["ANALYSIS: Correlating Vulnerabilities with Reachability Graph..."]⟩
  let decision := if corr.2.blocked then "BLOCK" else "ALLOW"
  { graph_nodes := gb.nodes
    graph_edges := gb.edges
    vulnerabilities := corr.1
    decision := decision
    logs := corr.2.logs ++ ["COMPLETE: Final Decision is " ++ decision] }

/-- The endpoint `analyze_code` (main.py lines 83-193): log the start
entries, parse, extract routes and calls, then run the post-extraction
pipeline `analyzeOk`.  On a parse failure the error payload is returned
instead; `none` models an unhandled exception in the extractor. -/
def analyzeCode (input : ParseResult) (requirements : String) (env : ScanEnv) :
    Option Response :=
  match input with
  | .syntaxError msg =>
    some (.error msg (startLogs ++ ["FATAL: Syntax Error in code: " ++ msg]))
  | .ok body =>
    match extractFn body startLogs with
    | none => none
    | some (routes, functions, logs1) =>
      some (.ok (analyzeOk routes functions logs1 requirements env))

end SG

namespace SG

/-- Modelled from the spec: configuration of the structural engine
(section 4.1) — `sinkNames` (qualified or bare call names),
`routeVerbs`, `internalPrefixes`. -/
structure SpecConfig where
  sinkNames : List String
  routeVerbs : List String
  internalPrefixes : List String
  deriving DecidableEq, Repr

/-- Modelled from the spec: node identities of the structural graph
(section 3, GraphNode kinds Origin / Entry / Function / Sink).  The
spec renders ids as unique strings; the kind-tagged sum captures
exactly that uniqueness (an Entry, the Function it marks, and a Sink
can never collide). -/
inductive NodeId where
  | origin : NodeId
  | entry (fnName : String) : NodeId
  | fn (fnName : String) : NodeId
  | sink (sinkName : String) : NodeId
  deriving DecidableEq, Repr

/-- Modelled from the spec: a graph node, id plus label (presentation
metadata other than the label is omitted — it is declared
non-decision-relevant). -/
structure SpecNode where
  id : NodeId
  label : String
  deriving DecidableEq, Repr

/-- Modelled from the spec: the structural graph of section 4.2 —
node and edge collections keyed by id, plus the discovery-ordered sink
id list of section 4.1. -/
structure SpecGraph where
  nodes : List SpecNode
  edges : List (NodeId × NodeId)
  sinkOrder : List NodeId
  deriving DecidableEq, Repr

/-- Modelled from the spec: node insertion is insert-if-absent, first
writer wins for attributes (section 4.2). -/
def addNode (g : SpecGraph) (i : NodeId) (lab : String) : SpecGraph :=
  if g.nodes.any (fun n => n.id == i) then g
  else { g with nodes := g.nodes ++ [⟨i, lab⟩] }

/-- Modelled from the spec: edge insertion is additive and idempotent
(section 4.2). -/
def addEdge (g : SpecGraph) (e : NodeId × NodeId) : SpecGraph :=
  if g.edges.contains e then g else { g with edges := g.edges ++ [e] }

/-- Modelled from the spec: append a discovered sink id to the
discovery-ordered list (section 4.1). -/
def addSinkOrder (g : SpecGraph) (i : NodeId) : SpecGraph :=
  { g with sinkOrder := g.sinkOrder ++ [i] }

/-- Modelled from the spec: the resolved name of a call's function —
bare (`load`) or `module.function` (`yaml.load`) (section 4.1). -/
def resolvedName : Expr → Option String
  | .name i => some i
  | .attr (.name m) a => some (m ++ "." ++ a)
  | _ => none

/-- Modelled from the spec: route detection (section 4.1) — the first
decorator that is a call whose method name is in `routeVerbs` and whose
first positional argument is a string literal yields the route path. -/
def routeOf (cfg : SpecConfig) : List Expr → Option String
  | [] => none
  | .call (.attr _ m) (.constant s :: _) :: rest =>
    if cfg.routeVerbs.contains m then some s else routeOf cfg rest
  | _ :: rest => routeOf cfg rest

/-- Modelled from the spec: internal-visibility classification — a
route path is internal iff it matches one of `internalPrefixes`
(sections 3 and 4.1). -/
def isInternal (cfg : SpecConfig) (path : String) : Bool :=
  cfg.internalPrefixes.any (fun pre => strStarts path pre)

/-- Modelled from the spec: sink handling at one call expression
(section 4.1) — inside a function body, a call whose resolved name is a
configured sink name creates the Sink node (insert-if-absent, labeled
by that name), adds the `Function -> Sink` edge from the innermost
enclosing function, and appends the sink id to the discovery order. -/
def sinkStep (cfg : SpecConfig) (stack : List String) (g : SpecGraph) (f : Expr) : SpecGraph :=
  match stack, resolvedName f with
  | encl :: _, some nm =>
    if cfg.sinkNames.contains nm then
      addSinkOrder (addEdge (addNode g (.sink nm) nm) (.fn encl, .sink nm)) (.sink nm)
    else g
  | _, _ => g

end SG

mutual

/-- Modelled from the spec: expression traversal of the extractor
(section 4.1), carrying the stack of enclosing-function frames. -/
def SG.extExpr (cfg : SG.SpecConfig) (stack : List String) (g : SG.SpecGraph) :
    SG.Expr → SG.SpecGraph
  | .call f args => SG.extExprs cfg stack (SG.extExpr cfg stack (SG.sinkStep cfg stack g f) f) args
  | .attr v _ => SG.extExpr cfg stack g v
  | .name _ => g
  | .constant _ => g

/-- Modelled from the spec: expression-list traversal. -/
def SG.extExprs (cfg : SG.SpecConfig) (stack : List String) (g : SG.SpecGraph) :
    List SG.Expr → SG.SpecGraph
  | [] => g
  | e :: rest => SG.extExprs cfg stack (SG.extExpr cfg stack g e) rest

end

mutual

/-- Modelled from the spec: statement traversal of the extractor
(section 4.1).  A function definition records its Function node; a
matching route decorator creates the Entry node labeled by the path and
the `Entry -> Function` edge, and — exactly when the path matches no
internal prefix — the `Origin -> Entry` edge.  The body is traversed
with the function pushed on the scope stack (section 4.1's stack of
enclosing-function frames). -/
def SG.extStmt (cfg : SG.SpecConfig) (stack : List String) (g : SG.SpecGraph) :
    SG.Stmt → SG.SpecGraph
  | .functionDef nm body decs =>
    let g1 := SG.addNode g (.fn nm) nm
    let g2 :=
      match SG.routeOf cfg decs with
      | some path =>
        let ga := SG.addEdge (SG.addNode g1 (.entry nm) path) (.entry nm, .fn nm)
        if SG.isInternal cfg path then ga else SG.addEdge ga (.origin, .entry nm)
      | none => g1
    SG.extStmts cfg (nm :: stack) g2 body
  | .exprStmt e => SG.extExpr cfg stack g e

/-- Modelled from the spec: statement-list traversal. -/
def SG.extStmts (cfg : SG.SpecConfig) (stack : List String) (g : SG.SpecGraph) :
    List SG.Stmt → SG.SpecGraph
  | [] => g
  | s :: rest => SG.extStmts cfg stack (SG.extStmt cfg stack g s) rest

end

namespace SG

/-- Modelled from the spec: the initial graph, holding exactly one
Origin node (section 3). -/
def initGraph : SpecGraph := ⟨[⟨.origin, "Internet"⟩], [], []⟩

/-- Modelled from the spec: the extractor over a parsed module
(section 4.1) — empty scope stack, graph seeded with the Origin node. -/
def specExtract (cfg : SpecConfig) (prog : List Stmt) : SpecGraph :=
  extStmts cfg [] initGraph prog

/-- Successor list of a node in the edge list. -/
def succs (edges : List (NodeId × NodeId)) (u : NodeId) : List NodeId :=
  (edges.filter (fun e => e.1 == u)).map (fun e => e.2)

/-- Modelled from the spec: depth-bounded search for a path `u -> t`
over the edge list (at most `k` edges), trying successors in order.
Returns the node sequence of the first path found. -/
def pathsFrom (edges : List (NodeId × NodeId)) (t : NodeId) : Nat → NodeId → Option (List NodeId)
  | 0, u => if u == t then some [u] else none
  | k + 1, u =>
    if u == t then some [u]
    else
      (succs edges u).foldr
        (fun v acc =>
          match pathsFrom edges t k v with
          | some p => some (u :: p)
          | none => acc)
        none

/-- Modelled from the spec: shortest-path search (section 4.3's
breadth-first evidence) — try depth bounds in increasing order, so the
first success has minimal length. -/
def shortestSearch (edges : List (NodeId × NodeId)) (t u : NodeId) : Nat → Option (List NodeId)
  | 0 => pathsFrom edges t 0 u
  | k + 1 =>
    match shortestSearch edges t u k with
    | some p => some p
    | none => pathsFrom edges t (k + 1) u

/-- Modelled from the spec: iterate the sink ids in discovery order and
stop at the first sink reachable from the origin
(first-discovered-wins, section 4.3), returning its evidence path. -/
def firstReach (edges : List (NodeId × NodeId)) (bound : Nat) : List NodeId → Option (List NodeId)
  | [] => none
  | s :: rest =>
    match shortestSearch edges s .origin bound with
    | some p => some p
    | none => firstReach edges bound rest

/-- Modelled from the spec: the decision of the reachability engine —
outcome plus optional evidence path (section 4.3; the ordered audit log
is omitted, no claim concerns it). -/
structure SpecDecision where
  outcome : String
  evidence : Option (List NodeId)
  deriving DecidableEq, Repr

/-- Modelled from the spec: `decide(graph, originId, sinkIds)`
(section 4.3) — BLOCK with the evidence path of the first reachable
sink, ALLOW when no sink is reachable.  A simple path over the graph
uses at most `edges.length` edges, so that bound makes the bounded
search complete. -/
def specDecide (g : SpecGraph) : SpecDecision :=
  match firstReach g.edges g.edges.length g.sinkOrder with
  | some p => ⟨"BLOCK", some p⟩
  | none => ⟨"ALLOW", none⟩

/-- Chains of length `k` in an edge list, used to state completeness of
the bounded path search. -/
inductive Reach (edges : List (NodeId × NodeId)) : NodeId → NodeId → Nat → Prop where
  | refl (u : NodeId) : Reach edges u u 0
  | step {u v t : NodeId} {k : Nat} :
      (u, v) ∈ edges → Reach edges v t k → Reach edges u t (k + 1)

end SG

mutual

/-- Occurrence of the function definition `functionDef nm body decs`
within a statement (at the top or nested inside another definition). -/
inductive SG.FnInStmt : SG.Stmt → String → List SG.Stmt → List SG.Expr → Prop where
  | here (nm : String) (body : List SG.Stmt) (decs : List SG.Expr) :
      SG.FnInStmt (.functionDef nm body decs) nm body decs
  | inBody {nm : String} {body : List SG.Stmt} {decs : List SG.Expr}
      (nm' : String) (body' : List SG.Stmt) (decs' : List SG.Expr) :
      SG.FnInStmts body' nm body decs →
      SG.FnInStmt (.functionDef nm' body' decs') nm body decs

/-- Occurrence of a function definition within a statement list. -/
inductive SG.FnInStmts : List SG.Stmt → String → List SG.Stmt → List SG.Expr → Prop where
  | head {s : SG.Stmt} {l : List SG.Stmt} {nm : String} {body : List SG.Stmt}
      {decs : List SG.Expr} :
      SG.FnInStmt s nm body decs → SG.FnInStmts (s :: l) nm body decs
  | tail {l : List SG.Stmt} {nm : String} {body : List SG.Stmt} {decs : List SG.Expr}
      (s : SG.Stmt) : SG.FnInStmts l nm body decs → SG.FnInStmts (s :: l) nm body decs

end

mutual

/-- Does an expression contain (at any depth) a call whose resolved
name is `s`?  Expressions contain no function definitions, so every
such call belongs to the function whose body hosts the expression. -/
def SG.exprCallsSink (s : String) : SG.Expr → Bool
  | .call f args =>
    decide (SG.resolvedName f = some s) || SG.exprCallsSink s f || SG.exprsCallSink s args
  | .attr v _ => SG.exprCallsSink s v
  | .name _ => false
  | .constant _ => false

/-- Any-expression version of `exprCallsSink`. -/
def SG.exprsCallSink (s : String) : List SG.Expr → Bool
  | [] => false
  | e :: rest => SG.exprCallsSink s e || SG.exprsCallSink s rest

end

namespace SG

/-- Does a statement, outside any nested function definition, contain a
call whose resolved name is `s`?  Nested definitions are skipped: their
calls belong to the nested (innermost) function. -/
def stmtDirectSink (s : String) : Stmt → Bool
  | .functionDef _ _ _ => false
  | .exprStmt e => exprCallsSink s e

/-- Any-statement version of `stmtDirectSink`: a direct dangerous call
in a function body. -/
def stmtsDirectSink (s : String) : List Stmt → Bool
  | [] => false
  | st :: rest => stmtDirectSink s st || stmtsDirectSink s rest

end SG

namespace SG

/-- Concrete program: an internal route function using a dangerous call
(the SAFE_CODE test scenario of src/test_engine.py). -/
def progInternalBackup : List Stmt :=
  [.functionDef "run_backup"
    [.exprStmt (.call (.attr (.name "os") "system") [.constant "backup_db.sh"])]
    [.call (.attr (.name "app") "post") [.constant "/internal/backup"]]]

/-- `progInternalBackup` with one additional dangerous call
(`yaml.load(data)`) inside the same internal route function. -/
def progInternalBackupLoad : List Stmt :=
  [.functionDef "run_backup"
    [.exprStmt (.call (.attr (.name "os") "system") [.constant "backup_db.sh"]),
     .exprStmt (.call (.attr (.name "yaml") "load") [.name "data"])]
    [.call (.attr (.name "app") "post") [.constant "/internal/backup"]]]

/-- Concrete program: a nested function definition whose inner function
performs `yaml.load()`. -/
def progNested : List Stmt :=
  [.functionDef "outer"
    [.functionDef "inner" [.exprStmt (.call (.attr (.name "yaml") "load") [])] []]
    []]

/-- Concrete program: a public route function calling `subprocess.call`
(the UNSAFE_CODE test scenario of src/test_engine.py). -/
def progPublicHack : List Stmt :=
  [.functionDef "hack_me"
    [.exprStmt (.call (.attr (.name "subprocess") "call") [.name "cmd"])]
    [.call (.attr (.name "app") "get") [.constant "/public/hack"]]]

/-- Concrete program: a function without any route decorator whose body
calls `yaml.load` (spec Scenario C). -/
def progHelperLoad : List Stmt :=
  [.functionDef "helper"
    [.exprStmt (.call (.attr (.name "yaml") "load") [.name "d"])]
    []]

/-- Concrete program: one public and one internal route. -/
def progTwoRoutes : List Stmt :=
  [.functionDef "show_item"
    [.exprStmt (.call (.attr (.name "db") "fetch") [.name "item_id"])]
    [.call (.attr (.name "app") "get") [.constant "/items"]],
   .functionDef "run_backup"
    [.exprStmt (.call (.attr (.name "os") "system") [.constant "backup_db.sh"])]
    [.call (.attr (.name "app") "post") [.constant "/admin/backup"]]]

/-- Concrete scanner environment: Trivy installed and reporting one
PyYAML vulnerability, Semgrep absent. -/
def envTrivyYaml : ScanEnv :=
  ⟨true, [⟨"CVE-2020-14343", "CRITICAL", "PyYAML", "yaml full_load deserialization"⟩],
   true, "", false, [], true, ""⟩

/-- Concrete scanner environment: neither scanner installed, reports
empty. -/
def envNoScanners : ScanEnv := ⟨false, [], true, "", false, [], true, ""⟩

/-- Modelled from the spec: a concrete configuration of the structural
engine — process-execution and deserialization sinks, the four route
verbs, and the two internal prefixes named throughout the spec. -/
def specCfg : SpecConfig :=
  ⟨["os.system", "subprocess.call", "subprocess.run", "yaml.load", "pickle.loads", "eval", "exec"],
   ["get", "post", "put", "delete"],
   ["/admin", "/internal"]⟩

/-- The result row the correlation computes for a single finding,
started from a pristine state: used to state that per-finding rows do
not depend on the surrounding run. -/
def corrRow (routes : List String) (functions : FMap) (v : Finding) : CorrResult :=
  (processFinding routes functions v ⟨"ALLOW", "Not Reachable from Internet", false, []⟩).1

/-- Whether a single finding escalates to BLOCK, computed from a
pristine state. -/
def corrHit (routes : List String) (functions : FMap) (v : Finding) : Bool :=
  (processFinding routes functions v ⟨"ALLOW", "Not Reachable from Internet", false, []⟩).2.blocked

/-- Invariant of the structural graph: every node with a Sink id is
labeled by the sink name. -/
def SinkLabelsOk (g : SpecGraph) : Prop :=
  ∀ n ∈ g.nodes, ∀ x, n.id = NodeId.sink x → n.label = x

/-- Invariant of the structural graph: the discovery-ordered list holds
Sink ids only. -/
def SinkOrderOk (g : SpecGraph) : Prop :=
  ∀ i ∈ g.sinkOrder, ∃ x, i = NodeId.sink x

end SG

namespace SG

theorem nodeSize_pos (n : Node) : 1 ≤ nodeSize n := by
  cases n with
  | module body => simp [nodeSize]
  | stmt s => cases s <;> simp [nodeSize, stmtSize] <;> omega
  | expr e => cases e <;> simp [nodeSize, exprSize] <;> omega

theorem queueSize_nil : queueSize [] = 0 := rfl

theorem queueSize_cons (n : Node) (q : List Node) :
    queueSize (n :: q) = nodeSize n + queueSize q := by
  simp [queueSize]

theorem queueSize_append (a b : List Node) :
    queueSize (a ++ b) = queueSize a + queueSize b := by
  simp [queueSize]

theorem queueSize_map_stmt (l : List Stmt) :
    queueSize (l.map Node.stmt) = stmtListSize l := by
  induction l with
  | nil => rfl
  | cons s rest ih => simp [queueSize_cons, stmtListSize, nodeSize, ih]

theorem queueSize_map_expr (l : List Expr) :
    queueSize (l.map Node.expr) = exprListSize l := by
  induction l with
  | nil => rfl
  | cons e rest ih => simp [queueSize_cons, exprListSize, nodeSize, ih]

theorem queueSize_children (n : Node) :
    nodeSize n = queueSize n.children + 1 := by
  cases n with
  | module body => simp [Node.children, nodeSize, queueSize_map_stmt]; omega
  | stmt s =>
    cases s with
    | functionDef nm body decs =>
      simp [Node.children, nodeSize, stmtSize, queueSize_append,
        queueSize_map_stmt, queueSize_map_expr]
      omega
    | exprStmt e =>
      simp [Node.children, nodeSize, stmtSize, queueSize_cons, queueSize_nil]
      omega
  | expr e =>
    cases e with
    | call f args =>
      simp [Node.children, nodeSize, exprSize, queueSize_cons, queueSize_map_expr]
      omega
    | attr v a =>
      simp [Node.children, nodeSize, exprSize, queueSize_cons, queueSize_nil]
      omega
    | name i => simp [Node.children, nodeSize, exprSize, queueSize_nil]
    | constant c => simp [Node.children, nodeSize, exprSize, queueSize_nil]

theorem walkQ_congr (f : Nat) : ∀ (g : Nat) (q : List Node),
    queueSize q ≤ f → queueSize q ≤ g → walkQ f q = walkQ g q := by
  induction f with
  | zero =>
    intro g q hf _
    cases q with
    | nil => cases g <;> rfl
    | cons n rest =>
      exfalso
      have h1 := nodeSize_pos n
      rw [queueSize_cons] at hf
      omega
  | succ f ih =>
    intro g q hf hg
    cases q with
    | nil => cases g <;> rfl
    | cons n rest =>
      cases g with
      | zero =>
        exfalso
        have h1 := nodeSize_pos n
        rw [queueSize_cons] at hg
        omega
      | succ g =>
        show n :: walkQ f (rest ++ n.children) = n :: walkQ g (rest ++ n.children)
        have hsz : queueSize (rest ++ n.children) + 1 = queueSize (n :: rest) := by
          rw [queueSize_append, queueSize_cons, queueSize_children n]
          omega
        exact congrArg (n :: ·) (ih g (rest ++ n.children) (by omega) (by omega))

theorem walk_nil : walk [] = [] := rfl

theorem walk_cons (n : Node) (rest : List Node) :
    walk (n :: rest) = n :: walk (rest ++ n.children) := by
  show walkQ (queueSize (n :: rest)) (n :: rest) = _
  have hsz : queueSize (n :: rest) = queueSize (rest ++ n.children) + 1 := by
    rw [queueSize_append, queueSize_cons, queueSize_children n]
    omega
  rw [hsz]
  show n :: walkQ (queueSize (rest ++ n.children)) (rest ++ n.children) = _
  rfl

end SG

namespace SG

theorem fatal_prefix (msg : String) :
    strStarts ("FATAL: Syntax Error in code: " ++ msg) "FATAL" = true := by
  show hasPrefixL "FATAL".data ("FATAL: Syntax Error in code: " ++ msg).data = true
  have h : ("FATAL: Syntax Error in code: " ++ msg).data =
      "FATAL: Syntax Error in code: ".data ++ msg.data := rfl
  rw [h]
  rfl

/-- C3: on a parse failure, `analyze_code` answers with the error
payload — whose decision under the `AnalyzeSource` interface is ERROR,
never "ALLOW" or "BLOCK" — carrying no graph nodes or edges, and
exactly one of its log entries is the FATAL diagnostic. -/
theorem claim_C3 (msg : String) (requirements : String) (env : ScanEnv) :
    analyzeCode (.syntaxError msg) requirements env =
      some (.error msg (startLogs ++ ["FATAL: Syntax Error in code: " ++ msg])) ∧
    (Response.error msg (startLogs ++ ["FATAL: Syntax Error in code: " ++ msg])).decision
      = "ERROR" ∧
    (Response.error msg (startLogs ++ ["FATAL: Syntax Error in code: " ++ msg])).decision
      ≠ "ALLOW" ∧
    (Response.error msg (startLogs ++ ["FATAL: Syntax Error in code: " ++ msg])).decision
      ≠ "BLOCK" ∧
    (Response.error msg (startLogs ++ ["FATAL: Syntax Error in code: " ++ msg])).graphNodes
      = [] ∧
    (Response.error msg (startLogs ++ ["FATAL: Syntax Error in code: " ++ msg])).graphEdges
      = [] ∧
    (startLogs ++ ["FATAL: Syntax Error in code: " ++ msg]).countP
      (fun entry => strStarts entry "FATAL") = 1 := by
  refine ⟨rfl, rfl, (by decide : ("ERROR" : String) ≠ "ALLOW"),
    (by decide : ("ERROR" : String) ≠ "BLOCK"), rfl, rfl, ?_⟩
  simp [startLogs, List.countP_cons, List.countP_nil, fatal_prefix msg]
  decide

end SG

namespace SG

theorem buildGraphLoop_edges_mono (functions : FMap) (routes : List String) :
    ∀ (acc : GBuild) (e : GEdge), e ∈ acc.edges →
      e ∈ (buildGraphLoop functions routes acc).edges := by
  induction routes with
  | nil => intro acc e h; simpa [buildGraphLoop] using h
  | cons r rest ih =>
    intro acc e h
    simp only [buildGraphLoop]
    split
    · exact ih _ e (by simp [h])
    · exact ih _ e h

theorem buildGraphLoop_nodes_mono (functions : FMap) (routes : List String) :
    ∀ (acc : GBuild) (n : GNode), n ∈ acc.nodes →
      n ∈ (buildGraphLoop functions routes acc).nodes := by
  induction routes with
  | nil => intro acc n h; simpa [buildGraphLoop] using h
  | cons r rest ih =>
    intro acc n h
    simp only [buildGraphLoop]
    split
    · exact ih _ n (by simp [h])
    · exact ih _ n (by simp [h])

theorem buildGraphLoop_edges_sub (functions : FMap) (routes : List String) :
    ∀ (acc : GBuild) (e : GEdge), e ∈ (buildGraphLoop functions routes acc).edges →
      e ∈ acc.edges ∨ ∃ r, r ∈ routes ∧ e = ⟨"INTERNET", r⟩ ∧
        (strStarts (dictGetD functions r).path "/admin" ||
         strStarts (dictGetD functions r).path "/internal") = false := by
  induction routes with
  | nil => intro acc e h; exact Or.inl (by simpa [buildGraphLoop] using h)
  | cons r rest ih =>
    intro acc e h
    simp only [buildGraphLoop] at h
    rcases hpub : (!(strStarts (dictGetD functions r).path "/admin" ||
        strStarts (dictGetD functions r).path "/internal")) with _ | _
    · rw [hpub] at h
      simp only [Bool.false_eq_true, if_false] at h
      rcases ih _ e h with h1 | ⟨r', hr', he, hcond⟩
      · exact Or.inl h1
      · exact Or.inr ⟨r', List.mem_cons_of_mem _ hr', he, hcond⟩
    · rw [hpub] at h
      simp only [if_true] at h
      rcases ih _ e h with h1 | ⟨r', hr', he, hcond⟩
      · simp only [List.mem_append, List.mem_singleton] at h1
        rcases h1 with h1 | h1
        · exact Or.inl h1
        · refine Or.inr ⟨r, List.mem_cons_self r rest, h1, ?_⟩
          simpa using hpub
      · exact Or.inr ⟨r', List.mem_cons_of_mem _ hr', he, hcond⟩

theorem buildGraphLoop_edges_of_mem (functions : FMap) (routes : List String) :
    ∀ (acc : GBuild) (r : String), r ∈ routes →
      (strStarts (dictGetD functions r).path "/admin" ||
       strStarts (dictGetD functions r).path "/internal") = false →
      GEdge.mk "INTERNET" r ∈ (buildGraphLoop functions routes acc).edges := by
  induction routes with
  | nil => intro acc r h; exact absurd h (List.not_mem_nil r)
  | cons r0 rest ih =>
    intro acc r hr hcond
    rcases List.mem_cons.mp hr with rfl | hr'
    · simp only [buildGraphLoop]
      rw [show (!(strStarts (dictGetD functions r).path "/admin" ||
          strStarts (dictGetD functions r).path "/internal")) = true by simp [hcond]]
      simp only [if_true]
      exact buildGraphLoop_edges_mono functions rest _ _ (by simp)
    · simp only [buildGraphLoop]
      split
      · exact ih _ r hr' hcond
      · exact ih _ r hr' hcond

theorem buildGraphLoop_nodes_of_mem (functions : FMap) (routes : List String) :
    ∀ (acc : GBuild) (r : String), r ∈ routes →
      ∃ n, n ∈ (buildGraphLoop functions routes acc).nodes ∧ n.id = r := by
  induction routes with
  | nil => intro acc r h; exact absurd h (List.not_mem_nil r)
  | cons r0 rest ih =>
    intro acc r hr
    rcases List.mem_cons.mp hr with rfl | hr'
    · simp only [buildGraphLoop]
      split
      · exact ⟨_, buildGraphLoop_nodes_mono functions rest _ _
          (List.mem_append_right _ (List.mem_singleton_self _)), rfl⟩
      · exact ⟨_, buildGraphLoop_nodes_mono functions rest _ _
          (List.mem_append_right _ (List.mem_singleton_self _)), rfl⟩
    · simp only [buildGraphLoop]
      split
      · exact ih _ r hr'
      · exact ih _ r hr'

/-- C5: for a parsed program, a route whose path starts with "/admin" or
"/internal" never receives an `INTERNET -> function` edge, and such an
edge is present exactly for the routes whose path starts with neither
prefix. -/
theorem claim_C5 (body : List Stmt) (requirements : String) (env : ScanEnv)
    (routes : List String) (functions : FMap) (lg : List String)
    (hext : extractFn body startLogs = some (routes, functions, lg)) :
    ∃ resp : OkResponse,
      analyzeCode (.ok body) requirements env = some (.ok resp) ∧
      (∀ name, name ∈ routes →
        (strStarts (dictGetD functions name).path "/admin" ||
         strStarts (dictGetD functions name).path "/internal") = true →
        GEdge.mk "INTERNET" name ∉ resp.graph_edges) ∧
      (∀ name,
        GEdge.mk "INTERNET" name ∈ resp.graph_edges ↔
          name ∈ routes ∧
          (strStarts (dictGetD functions name).path "/admin" ||
           strStarts (dictGetD functions name).path "/internal") = false) := by
  refine ⟨analyzeOk routes functions lg requirements env, by simp [analyzeCode, hext], ?_, ?_⟩
  · intro name hmem hint hedge
    have hsub := buildGraphLoop_edges_sub functions routes _ _ hedge
    rcases hsub with h1 | ⟨r', _, he, hcond⟩
    · simp at h1
    · cases he
      rw [hint] at hcond
      exact absurd hcond (by decide)
  · intro name
    constructor
    · intro hedge
      have hsub := buildGraphLoop_edges_sub functions routes _ _ hedge
      rcases hsub with h1 | ⟨r', hr', he, hcond⟩
      · simp at h1
      · cases he
        exact ⟨hr', hcond⟩
    · intro ⟨hmem, hcond⟩
      exact buildGraphLoop_edges_of_mem functions routes _ name hmem hcond

/-- C10: for a parsed program, every edge of the returned graph has the
INTERNET node as its source and a route function as its target (which
has a node in the graph); in particular there are no function-to-
function or function-to-sink edges. -/
theorem claim_C10 (body : List Stmt) (requirements : String) (env : ScanEnv)
    (routes : List String) (functions : FMap) (lg : List String)
    (hext : extractFn body startLogs = some (routes, functions, lg)) :
    ∃ resp : OkResponse,
      analyzeCode (.ok body) requirements env = some (.ok resp) ∧
      ∀ e ∈ resp.graph_edges, e.source = "INTERNET" ∧ e.target ∈ routes ∧
        ∃ n, n ∈ resp.graph_nodes ∧ n.id = e.target := by
  refine ⟨analyzeOk routes functions lg requirements env, by simp [analyzeCode, hext], ?_⟩
  intro e hedge
  have hsub := buildGraphLoop_edges_sub functions routes _ _ hedge
  rcases hsub with h1 | ⟨r', hr', he, _⟩
  · simp at h1
  · cases he
    exact ⟨rfl, hr', buildGraphLoop_nodes_of_mem functions routes _ r' hr'⟩

/-- C2: for a parsed program whose scanners report no findings at all,
the decision is ALLOW, whatever routes, visibilities and dangerous
calls the program contains — the structural graph alone never produces
BLOCK. -/
theorem claim_C2 (body : List Stmt) (requirements : String) (env : ScanEnv)
    (routes : List String) (functions : FMap) (lg : List String)
    (hext : extractFn body startLogs = some (routes, functions, lg))
    (hfind : scanFindings requirements env = []) :
    ∃ resp : OkResponse,
      analyzeCode (.ok body) requirements env = some (.ok resp) ∧
      resp.decision = "ALLOW" := by
  refine ⟨analyzeOk routes functions lg requirements env, by simp [analyzeCode, hext], ?_⟩
  show (analyzeOk routes functions lg requirements env).decision = "ALLOW"
  unfold analyzeOk
  simp only [run_security_scan, hfind, correlate]
  rfl

end SG


namespace SG

theorem semLoop_sr (functions : FMap) (routes : List String) :
    ∀ (st st2 : CorrState), st.status = st2.status → st.reason = st2.reason →
      (semgrepRouteLoop functions routes st).status =
        (semgrepRouteLoop functions routes st2).status ∧
      (semgrepRouteLoop functions routes st).reason =
        (semgrepRouteLoop functions routes st2).reason := by
  induction routes with
  | nil => intro st st2 hs hr; exact ⟨hs, hr⟩
  | cons r rest ih =>
    intro st st2 hs hr
    simp only [semgrepRouteLoop]
    by_cases h1 : (!(strStarts (dictGetD functions r).path "/admin" ||
        strStarts (dictGetD functions r).path "/internal")) = true
    · simp only [h1, if_true]
      by_cases h2 : ((dictGetD functions r).calls.contains "load") = true
      · simp only [h2, if_true]
        exact ih _ _ rfl rfl
      · simp only [h2, if_false, Bool.false_eq_true]
        exact ih _ _ hs hr
    · simp only [h1, if_false, Bool.false_eq_true]
      exact ih _ _ hs hr

theorem semLoop_blocked_true (functions : FMap) (routes : List String) :
    ∀ st : CorrState, st.blocked = true →
      (semgrepRouteLoop functions routes st).blocked = true := by
  induction routes with
  | nil => intro st h; exact h
  | cons r rest ih =>
    intro st h
    simp only [semgrepRouteLoop]
    by_cases h1 : (!(strStarts (dictGetD functions r).path "/admin" ||
        strStarts (dictGetD functions r).path "/internal")) = true
    · simp only [h1, if_true]
      by_cases h2 : ((dictGetD functions r).calls.contains "load") = true
      · simp only [h2, if_true]
        exact ih _ rfl
      · simp only [h2, if_false, Bool.false_eq_true]
        exact ih _ h
    · simp only [h1, if_false, Bool.false_eq_true]
      exact ih _ h

theorem semLoop_blocked_irrel (functions : FMap) (routes : List String) :
    ∀ (st st2 : CorrState), st.blocked = st2.blocked →
      (semgrepRouteLoop functions routes st).blocked =
        (semgrepRouteLoop functions routes st2).blocked := by
  induction routes with
  | nil => intro st st2 h; exact h
  | cons r rest ih =>
    intro st st2 h
    simp only [semgrepRouteLoop]
    by_cases h1 : (!(strStarts (dictGetD functions r).path "/admin" ||
        strStarts (dictGetD functions r).path "/internal")) = true
    · simp only [h1, if_true]
      by_cases h2 : ((dictGetD functions r).calls.contains "load") = true
      · simp only [h2, if_true]
        exact ih _ _ rfl
      · simp only [h2, if_false, Bool.false_eq_true]
        exact ih _ _ h
    · simp only [h1, if_false, Bool.false_eq_true]
      exact ih _ _ h

theorem semLoop_blocked_or (functions : FMap) (routes : List String) (st st2 : CorrState)
    (h2 : st2.blocked = false) :
    (semgrepRouteLoop functions routes st).blocked =
      (st.blocked || (semgrepRouteLoop functions routes st2).blocked) := by
  rcases hb : st.blocked with _ | _
  · simp only [Bool.false_or]
    exact semLoop_blocked_irrel functions routes st st2 (hb.trans h2.symm)
  · simp only [Bool.true_or]
    exact semLoop_blocked_true functions routes st hb

theorem trivyLoop_sr (functions : FMap) (pkg : String) (routes : List String) :
    ∀ (st st2 : CorrState), st.status = st2.status → st.reason = st2.reason →
      (trivyRouteLoop functions pkg routes st).status =
        (trivyRouteLoop functions pkg routes st2).status ∧
      (trivyRouteLoop functions pkg routes st).reason =
        (trivyRouteLoop functions pkg routes st2).reason := by
  induction routes with
  | nil => intro st st2 hs hr; exact ⟨hs, hr⟩
  | cons r rest ih =>
    intro st st2 hs hr
    simp only [trivyRouteLoop]
    by_cases h1 : (!(strStarts (dictGetD functions r).path "/admin")) = true
    · simp only [h1, if_true]
      by_cases h2 : ((dictGetD functions r).calls.contains "load") = true
      · simp only [h2, if_true]
        exact ih _ _ rfl rfl
      · simp only [h2, if_false, Bool.false_eq_true]
        exact ih _ _ hs hr
    · simp only [h1, if_false, Bool.false_eq_true]
      exact ih _ _ hs hr

theorem trivyLoop_blocked_true (functions : FMap) (pkg : String) (routes : List String) :
    ∀ st : CorrState, st.blocked = true →
      (trivyRouteLoop functions pkg routes st).blocked = true := by
  induction routes with
  | nil => intro st h; exact h
  | cons r rest ih =>
    intro st h
    simp only [trivyRouteLoop]
    by_cases h1 : (!(strStarts (dictGetD functions r).path "/admin")) = true
    · simp only [h1, if_true]
      by_cases h2 : ((dictGetD functions r).calls.contains "load") = true
      · simp only [h2, if_true]
        exact ih _ rfl
      · simp only [h2, if_false, Bool.false_eq_true]
        exact ih _ h
    · simp only [h1, if_false, Bool.false_eq_true]
      exact ih _ h

theorem trivyLoop_blocked_irrel (functions : FMap) (pkg : String) (routes : List String) :
    ∀ (st st2 : CorrState), st.blocked = st2.blocked →
      (trivyRouteLoop functions pkg routes st).blocked =
        (trivyRouteLoop functions pkg routes st2).blocked := by
  induction routes with
  | nil => intro st st2 h; exact h
  | cons r rest ih =>
    intro st st2 h
    simp only [trivyRouteLoop]
    by_cases h1 : (!(strStarts (dictGetD functions r).path "/admin")) = true
    · simp only [h1, if_true]
      by_cases h2 : ((dictGetD functions r).calls.contains "load") = true
      · simp only [h2, if_true]
        exact ih _ _ rfl
      · simp only [h2, if_false, Bool.false_eq_true]
        exact ih _ _ h
    · simp only [h1, if_false, Bool.false_eq_true]
      exact ih _ _ h

theorem trivyLoop_blocked_or (functions : FMap) (pkg : String) (routes : List String)
    (st st2 : CorrState) (h2 : st2.blocked = false) :
    (trivyRouteLoop functions pkg routes st).blocked =
      (st.blocked || (trivyRouteLoop functions pkg routes st2).blocked) := by
  rcases hb : st.blocked with _ | _
  · simp only [Bool.false_or]
    exact trivyLoop_blocked_irrel functions pkg routes st st2 (hb.trans h2.symm)
  · simp only [Bool.true_or]
    exact trivyLoop_blocked_true functions pkg routes st hb

theorem processFinding_row (routes : List String) (functions : FMap) (v : Finding)
    (st : CorrState) :
    (processFinding routes functions v st).1 = corrRow routes functions v := by
  simp only [corrRow, processFinding]
  by_cases hc1 : (v.source == "Semgrep" &&
      (pyIn "yaml" (pyLower v.id) || pyIn "deserialize" (pyLower v.id))) = true
  · rw [if_pos hc1, if_pos hc1]
    by_cases hc2 : (v.source == "Trivy" && pyIn "yaml" (pyLower v.pkg_name)) = true
    · rw [if_pos hc2, if_pos hc2]
      have h1 := semLoop_sr functions routes
        ⟨"ALLOW", "Not Reachable from Internet", st.blocked, st.logs⟩
        ⟨"ALLOW", "Not Reachable from Internet", false, []⟩ rfl rfl
      have h2 := trivyLoop_sr functions v.pkg_name routes _ _ h1.1 h1.2
      exact congrArg₂ (fun a b => CorrResult.mk v.id a b) h2.1 h2.2
    · rw [if_neg hc2, if_neg hc2]
      have h1 := semLoop_sr functions routes
        ⟨"ALLOW", "Not Reachable from Internet", st.blocked, st.logs⟩
        ⟨"ALLOW", "Not Reachable from Internet", false, []⟩ rfl rfl
      exact congrArg₂ (fun a b => CorrResult.mk v.id a b) h1.1 h1.2
  · rw [if_neg hc1, if_neg hc1]
    by_cases hc2 : (v.source == "Trivy" && pyIn "yaml" (pyLower v.pkg_name)) = true
    · rw [if_pos hc2, if_pos hc2]
      have h2 := trivyLoop_sr functions v.pkg_name routes
        ⟨"ALLOW", "Not Reachable from Internet", st.blocked, st.logs⟩
        ⟨"ALLOW", "Not Reachable from Internet", false, []⟩ rfl rfl
      exact congrArg₂ (fun a b => CorrResult.mk v.id a b) h2.1 h2.2
    · rw [if_neg hc2, if_neg hc2]

theorem processFinding_blocked (routes : List String) (functions : FMap) (v : Finding)
    (st : CorrState) :
    (processFinding routes functions v st).2.blocked =
      (st.blocked || corrHit routes functions v) := by
  simp only [corrHit, processFinding]
  by_cases hc1 : (v.source == "Semgrep" &&
      (pyIn "yaml" (pyLower v.id) || pyIn "deserialize" (pyLower v.id))) = true
  · rw [if_pos hc1, if_pos hc1]
    by_cases hc2 : (v.source == "Trivy" && pyIn "yaml" (pyLower v.pkg_name)) = true
    · rw [if_pos hc2, if_pos hc2]
      show (trivyRouteLoop functions v.pkg_name routes
          (semgrepRouteLoop functions routes
            ⟨"ALLOW", "Not Reachable from Internet", st.blocked, st.logs⟩)).blocked =
        (st.blocked || (trivyRouteLoop functions v.pkg_name routes
          (semgrepRouteLoop functions routes
            ⟨"ALLOW", "Not Reachable from Internet", false, []⟩)).blocked)
      rw [trivyLoop_blocked_or functions v.pkg_name routes
        (semgrepRouteLoop functions routes
          ⟨"ALLOW", "Not Reachable from Internet", st.blocked, st.logs⟩)
        ⟨"ALLOW", "Not Reachable from Internet", false, []⟩ rfl]
      rw [trivyLoop_blocked_or functions v.pkg_name routes
        (semgrepRouteLoop functions routes
          ⟨"ALLOW", "Not Reachable from Internet", false, []⟩)
        ⟨"ALLOW", "Not Reachable from Internet", false, []⟩ rfl]
      rw [semLoop_blocked_or functions routes
        ⟨"ALLOW", "Not Reachable from Internet", st.blocked, st.logs⟩
        ⟨"ALLOW", "Not Reachable from Internet", false, []⟩ rfl]
      simp [Bool.or_assoc]
    · rw [if_neg hc2, if_neg hc2]
      show (semgrepRouteLoop functions routes
          ⟨"ALLOW", "Not Reachable from Internet", st.blocked, st.logs⟩).blocked =
        (st.blocked || (semgrepRouteLoop functions routes
          ⟨"ALLOW", "Not Reachable from Internet", false, []⟩).blocked)
      exact semLoop_blocked_or functions routes
        ⟨"ALLOW", "Not Reachable from Internet", st.blocked, st.logs⟩
        ⟨"ALLOW", "Not Reachable from Internet", false, []⟩ rfl
  · rw [if_neg hc1, if_neg hc1]
    by_cases hc2 : (v.source == "Trivy" && pyIn "yaml" (pyLower v.pkg_name)) = true
    · rw [if_pos hc2, if_pos hc2]
      show (trivyRouteLoop functions v.pkg_name routes
          ⟨"ALLOW", "Not Reachable from Internet", st.blocked, st.logs⟩).blocked =
        (st.blocked || (trivyRouteLoop functions v.pkg_name routes
          ⟨"ALLOW", "Not Reachable from Internet", false, []⟩).blocked)
      exact trivyLoop_blocked_or functions v.pkg_name routes
        ⟨"ALLOW", "Not Reachable from Internet", st.blocked, st.logs⟩
        ⟨"ALLOW", "Not Reachable from Internet", false, []⟩ rfl
    · rw [if_neg hc2, if_neg hc2]
      simp

/-- C8: the correlation step is a pure per-finding computation — the
result rows are the pointwise map of `corrRow` over the findings (so a
finding's status and reason depend only on that finding, the routes and
the function map, not on any accumulated state), and the blocked flag
is the disjunction of the per-finding `corrHit` verdicts with the
incoming flag.  Identical inputs therefore always give identical
statuses, reasons and blocked flag. -/
theorem claim_C8 (routes : List String) (functions : FMap) (vulns : List Finding)
    (st : CorrState) :
    (correlate routes functions vulns st).1 = vulns.map (corrRow routes functions) ∧
    (correlate routes functions vulns st).2.blocked =
      (st.blocked || vulns.any (corrHit routes functions)) := by
  induction vulns generalizing st with
  | nil => simp [correlate]
  | cons v rest ih =>
    simp only [correlate, List.map_cons, List.any_cons]
    constructor
    · rw [processFinding_row routes functions v st]
      exact congrArg (corrRow routes functions v :: ·) (ih _).1
    · rw [(ih _).2, processFinding_blocked routes functions v st]
      simp [Bool.or_assoc]

end SG

namespace SG

/-- C4 fails on the code: with a fixed Trivy finding for PyYAML, the
program whose only route is the internal "/internal/backup" decides
ALLOW, but adding one more dangerous call (`yaml.load`) inside that
same internal route flips the decision to BLOCK — the Trivy correlation
branch (main.py line 173) checks only the "/admin" prefix, so an
"/internal" route escalates, contradicting the visibility rule the
code itself uses at lines 136 and 163. -/
theorem claim_C4_bug :
    respDecision (analyzeCode (.ok progInternalBackup) "pyyaml==5.3" envTrivyYaml) =
      some "ALLOW" ∧
    respDecision (analyzeCode (.ok progInternalBackupLoad) "pyyaml==5.3" envTrivyYaml) =
      some "BLOCK" := by
  constructor
  · decide
  · decide

/-- C7 fails on the code: in `progNested`, the call `yaml.load()` sits
in the body of `inner` only, yet the extraction attributes "load" to
the calls list of both `outer` and `inner` — `ast.walk(node)` at
main.py line 118 traverses the whole subtree of each function,
including nested definitions, so a call is recorded for every enclosing
function, not only the innermost one. -/
theorem claim_C7_bug :
    extractFn progNested [] =
      some ([],
        [("outer", ⟨false, "", ["load"]⟩), ("inner", ⟨false, "", ["load"]⟩)],
        []) := by
  decide

/-- C9 fails on the code for the Semgrep scanner: with empty declared
dependencies and neither scanner installed, the request still completes
with a structured ALLOW response, but `run_security_scan` appends no
warning at all — the `if shutil.which("semgrep")` block (main.py lines
61-79) has no else branch, so an absent Semgrep is skipped silently
(and the Trivy warning is only reachable when requirements.txt is
non-empty). -/
theorem claim_C9_bug :
    run_security_scan "" envNoScanners [] =
      ([], ["INFO: Initializing Trivy (Dependency Scanner)...",
            "INFO: Initializing Semgrep (SAST Scanner)..."]) ∧
    (scanLogEntries "" envNoScanners).countP (fun entry => strStarts entry "WARN") = 0 ∧
    respDecision (analyzeCode (.ok []) "" envNoScanners) = some "ALLOW" := by
  refine ⟨by decide, by decide, by decide⟩

end SG

namespace SG

theorem claim_C2_witness :
    ∃ resp : OkResponse,
      analyzeCode (.ok progHelperLoad) "" envNoScanners = some (.ok resp) ∧
      resp.decision = "ALLOW" :=
  claim_C2 progHelperLoad "" envNoScanners
    [] [("helper", ⟨false, "", ["load"]⟩)] startLogs
    (by decide) (by decide)

theorem claim_C5_witness :
    ∃ resp : OkResponse,
      analyzeCode (.ok progTwoRoutes) "" envNoScanners = some (.ok resp) ∧
      (∀ name, name ∈ ["show_item", "run_backup"] →
        (strStarts (dictGetD
            [("show_item", ⟨true, "/items", ["get", "fetch"]⟩),
             ("run_backup", ⟨true, "/admin/backup", ["post", "system"]⟩)] name).path "/admin" ||
         strStarts (dictGetD
            [("show_item", ⟨true, "/items", ["get", "fetch"]⟩),
             ("run_backup", ⟨true, "/admin/backup", ["post", "system"]⟩)] name).path "/internal")
          = true →
        GEdge.mk "INTERNET" name ∉ resp.graph_edges) ∧
      (∀ name,
        GEdge.mk "INTERNET" name ∈ resp.graph_edges ↔
          name ∈ ["show_item", "run_backup"] ∧
          (strStarts (dictGetD
              [("show_item", ⟨true, "/items", ["get", "fetch"]⟩),
               ("run_backup", ⟨true, "/admin/backup", ["post", "system"]⟩)] name).path "/admin" ||
           strStarts (dictGetD
              [("show_item", ⟨true, "/items", ["get", "fetch"]⟩),
               ("run_backup", ⟨true, "/admin/backup", ["post", "system"]⟩)] name).path "/internal")
            = false) :=
  claim_C5 progTwoRoutes "" envNoScanners
    ["show_item", "run_backup"]
    [("show_item", ⟨true, "/items", ["get", "fetch"]⟩),
     ("run_backup", ⟨true, "/admin/backup", ["post", "system"]⟩)]
    (startLogs ++ ["DEBUG: Found Route /items -> show_item",
                   "DEBUG: Found Route /admin/backup -> run_backup"])
    (by decide)

theorem claim_C10_witness :
    ∃ resp : OkResponse,
      analyzeCode (.ok progTwoRoutes) "" envNoScanners = some (.ok resp) ∧
      ∀ e ∈ resp.graph_edges, e.source = "INTERNET" ∧
        e.target ∈ ["show_item", "run_backup"] ∧
        ∃ n, n ∈ resp.graph_nodes ∧ n.id = e.target :=
  claim_C10 progTwoRoutes "" envNoScanners
    ["show_item", "run_backup"]
    [("show_item", ⟨true, "/items", ["get", "fetch"]⟩),
     ("run_backup", ⟨true, "/admin/backup", ["post", "system"]⟩)]
    (startLogs ++ ["DEBUG: Found Route /items -> show_item",
                   "DEBUG: Found Route /admin/backup -> run_backup"])
    (by decide)

end SG

namespace SG

theorem addNode_edges (g : SpecGraph) (i : NodeId) (lab : String) :
    (addNode g i lab).edges = g.edges := by
  unfold addNode; split <;> rfl

theorem addNode_sinkOrder (g : SpecGraph) (i : NodeId) (lab : String) :
    (addNode g i lab).sinkOrder = g.sinkOrder := by
  unfold addNode; split <;> rfl

theorem addNode_nodes_mono (g : SpecGraph) (i : NodeId) (lab : String)
    (n : SpecNode) (h : n ∈ g.nodes) : n ∈ (addNode g i lab).nodes := by
  unfold addNode; split
  · exact h
  · exact List.mem_append_left _ h

theorem addNode_mem_id (g : SpecGraph) (i : NodeId) (lab : String) :
    ∃ n, n ∈ (addNode g i lab).nodes ∧ n.id = i := by
  unfold addNode; split
  · next h =>
    rcases List.any_eq_true.mp h with ⟨n, hn, hid⟩
    exact ⟨n, hn, by simpa using hid⟩
  · exact ⟨⟨i, lab⟩, List.mem_append_right _ (List.mem_singleton_self _), rfl⟩

theorem addEdge_nodes (g : SpecGraph) (e : NodeId × NodeId) :
    (addEdge g e).nodes = g.nodes := by
  unfold addEdge; split <;> rfl

theorem addEdge_sinkOrder (g : SpecGraph) (e : NodeId × NodeId) :
    (addEdge g e).sinkOrder = g.sinkOrder := by
  unfold addEdge; split <;> rfl

theorem addEdge_self (g : SpecGraph) (e : NodeId × NodeId) :
    e ∈ (addEdge g e).edges := by
  unfold addEdge; split
  · next h => exact List.mem_of_elem_eq_true h
  · exact List.mem_append_right _ (List.mem_singleton_self _)

theorem addEdge_edges_mono (g : SpecGraph) (e x : NodeId × NodeId)
    (h : x ∈ g.edges) : x ∈ (addEdge g e).edges := by
  unfold addEdge; split
  · exact h
  · exact List.mem_append_left _ h

theorem addSinkOrder_nodes (g : SpecGraph) (i : NodeId) :
    (addSinkOrder g i).nodes = g.nodes := rfl

theorem addSinkOrder_edges (g : SpecGraph) (i : NodeId) :
    (addSinkOrder g i).edges = g.edges := rfl

theorem addSinkOrder_self (g : SpecGraph) (i : NodeId) :
    i ∈ (addSinkOrder g i).sinkOrder :=
  List.mem_append_right _ (List.mem_singleton_self _)

theorem addSinkOrder_mono (g : SpecGraph) (i x : NodeId)
    (h : x ∈ g.sinkOrder) : x ∈ (addSinkOrder g i).sinkOrder :=
  List.mem_append_left _ h

theorem sinkStep_edges_mono (cfg : SpecConfig) (stack : List String) (g : SpecGraph)
    (f : Expr) (x : NodeId × NodeId) (h : x ∈ g.edges) :
    x ∈ (sinkStep cfg stack g f).edges := by
  unfold sinkStep
  rcases stack with _ | ⟨encl, rest⟩
  · exact h
  · rcases hres : resolvedName f with _ | nm
    · exact h
    · simp only
      split
      · rw [addSinkOrder_edges]
        exact addEdge_edges_mono _ _ _ (by rw [addNode_edges]; exact h)
      · exact h

theorem sinkStep_nodes_mono (cfg : SpecConfig) (stack : List String) (g : SpecGraph)
    (f : Expr) (n : SpecNode) (h : n ∈ g.nodes) :
    n ∈ (sinkStep cfg stack g f).nodes := by
  unfold sinkStep
  rcases stack with _ | ⟨encl, rest⟩
  · exact h
  · rcases hres : resolvedName f with _ | nm
    · exact h
    · simp only
      split
      · rw [addSinkOrder_nodes, addEdge_nodes]
        exact addNode_nodes_mono _ _ _ _ h
      · exact h

theorem sinkStep_sinkOrder_mono (cfg : SpecConfig) (stack : List String) (g : SpecGraph)
    (f : Expr) (x : NodeId) (h : x ∈ g.sinkOrder) :
    x ∈ (sinkStep cfg stack g f).sinkOrder := by
  unfold sinkStep
  rcases stack with _ | ⟨encl, rest⟩
  · exact h
  · rcases hres : resolvedName f with _ | nm
    · exact h
    · simp only
      split
      · exact addSinkOrder_mono _ _ _ (by rw [addEdge_sinkOrder, addNode_sinkOrder]; exact h)
      · exact h

end SG

namespace SG

theorem addNode_labels (g : SpecGraph) (i : NodeId) (lab : String)
    (hg : SinkLabelsOk g) (hi : ∀ x, i = NodeId.sink x → lab = x) :
    SinkLabelsOk (addNode g i lab) := by
  unfold addNode; split
  · exact hg
  · intro n hn x hx
    rcases List.mem_append.mp hn with h | h
    · exact hg n h x hx
    · rcases List.mem_singleton.mp h with rfl
      exact hi x hx

theorem addNode_orderok (g : SpecGraph) (i : NodeId) (lab : String)
    (hg : SinkOrderOk g) : SinkOrderOk (addNode g i lab) := by
  intro x hx
  rw [addNode_sinkOrder] at hx
  exact hg x hx

theorem addEdge_labels (g : SpecGraph) (e : NodeId × NodeId)
    (hg : SinkLabelsOk g) : SinkLabelsOk (addEdge g e) := by
  intro n hn
  rw [addEdge_nodes] at hn
  exact hg n hn

theorem addEdge_orderok (g : SpecGraph) (e : NodeId × NodeId)
    (hg : SinkOrderOk g) : SinkOrderOk (addEdge g e) := by
  intro x hx
  rw [addEdge_sinkOrder] at hx
  exact hg x hx

theorem addSinkOrder_labels (g : SpecGraph) (i : NodeId)
    (hg : SinkLabelsOk g) : SinkLabelsOk (addSinkOrder g i) := hg

theorem addSinkOrder_orderok (g : SpecGraph) (i : NodeId)
    (hg : SinkOrderOk g) (hi : ∃ x, i = NodeId.sink x) :
    SinkOrderOk (addSinkOrder g i) := by
  intro x hx
  rcases List.mem_append.mp hx with h | h
  · exact hg x h
  · rcases List.mem_singleton.mp h with rfl
    exact hi

theorem sinkStep_labels (cfg : SpecConfig) (stack : List String) (g : SpecGraph)
    (f : Expr) (hg : SinkLabelsOk g) : SinkLabelsOk (sinkStep cfg stack g f) := by
  unfold sinkStep
  rcases stack with _ | ⟨encl, rest⟩
  · exact hg
  · rcases resolvedName f with _ | nm
    · exact hg
    · simp only
      split
      · exact addSinkOrder_labels _ _ (addEdge_labels _ _
          (addNode_labels _ _ _ hg (by intro x hx; cases hx; rfl)))
      · exact hg

theorem sinkStep_orderok (cfg : SpecConfig) (stack : List String) (g : SpecGraph)
    (f : Expr) (hg : SinkOrderOk g) : SinkOrderOk (sinkStep cfg stack g f) := by
  unfold sinkStep
  rcases stack with _ | ⟨encl, rest⟩
  · exact hg
  · rcases resolvedName f with _ | nm
    · exact hg
    · simp only
      split
      · exact addSinkOrder_orderok _ _ (addEdge_orderok _ _ (addNode_orderok _ _ _ hg)) ⟨nm, rfl⟩
      · exact hg

end SG

mutual

theorem SG.extExpr_pres (cfg : SG.SpecConfig) (stack : List String) (g : SG.SpecGraph) :
    ∀ e : SG.Expr,
      (∀ x ∈ g.edges, x ∈ (SG.extExpr cfg stack g e).edges) ∧
      (∀ n ∈ g.nodes, n ∈ (SG.extExpr cfg stack g e).nodes) ∧
      (∀ i ∈ g.sinkOrder, i ∈ (SG.extExpr cfg stack g e).sinkOrder) ∧
      (SG.SinkLabelsOk g → SG.SinkLabelsOk (SG.extExpr cfg stack g e)) ∧
      (SG.SinkOrderOk g → SG.SinkOrderOk (SG.extExpr cfg stack g e)) := by
  intro e
  cases e with
  | call f args =>
    simp only [SG.extExpr]
    have h1 :=
      fun x hx => SG.sinkStep_edges_mono cfg stack g f x hx
    have h2 := fun n hn => SG.sinkStep_nodes_mono cfg stack g f n hn
    have h3 := fun i hi => SG.sinkStep_sinkOrder_mono cfg stack g f i hi
    have hf := SG.extExpr_pres cfg stack (SG.sinkStep cfg stack g f) f
    have ha := SG.extExprs_pres cfg stack
      (SG.extExpr cfg stack (SG.sinkStep cfg stack g f) f) args
    refine ⟨?_, ?_, ?_, ?_, ?_⟩
    · exact fun x hx => ha.1 x (hf.1 x (h1 x hx))
    · exact fun n hn => ha.2.1 n (hf.2.1 n (h2 n hn))
    · exact fun i hi => ha.2.2.1 i (hf.2.2.1 i (h3 i hi))
    · exact fun h => ha.2.2.2.1 (hf.2.2.2.1 (SG.sinkStep_labels cfg stack g f h))
    · exact fun h => ha.2.2.2.2 (hf.2.2.2.2 (SG.sinkStep_orderok cfg stack g f h))
  | attr v a =>
    simp only [SG.extExpr]
    exact SG.extExpr_pres cfg stack g v
  | name i =>
    exact ⟨fun x hx => hx, fun n hn => hn, fun i hi => hi, fun h => h, fun h => h⟩
  | constant c =>
    exact ⟨fun x hx => hx, fun n hn => hn, fun i hi => hi, fun h => h, fun h => h⟩

theorem SG.extExprs_pres (cfg : SG.SpecConfig) (stack : List String) (g : SG.SpecGraph) :
    ∀ es : List SG.Expr,
      (∀ x ∈ g.edges, x ∈ (SG.extExprs cfg stack g es).edges) ∧
      (∀ n ∈ g.nodes, n ∈ (SG.extExprs cfg stack g es).nodes) ∧
      (∀ i ∈ g.sinkOrder, i ∈ (SG.extExprs cfg stack g es).sinkOrder) ∧
      (SG.SinkLabelsOk g → SG.SinkLabelsOk (SG.extExprs cfg stack g es)) ∧
      (SG.SinkOrderOk g → SG.SinkOrderOk (SG.extExprs cfg stack g es)) := by
  intro es
  cases es with
  | nil =>
    exact ⟨fun x hx => hx, fun n hn => hn, fun i hi => hi, fun h => h, fun h => h⟩
  | cons e rest =>
    simp only [SG.extExprs]
    have he := SG.extExpr_pres cfg stack g e
    have hr := SG.extExprs_pres cfg stack (SG.extExpr cfg stack g e) rest
    refine ⟨?_, ?_, ?_, ?_, ?_⟩
    · exact fun x hx => hr.1 x (he.1 x hx)
    · exact fun n hn => hr.2.1 n (he.2.1 n hn)
    · exact fun i hi => hr.2.2.1 i (he.2.2.1 i hi)
    · exact fun h => hr.2.2.2.1 (he.2.2.2.1 h)
    · exact fun h => hr.2.2.2.2 (he.2.2.2.2 h)

end

mutual

theorem SG.extStmt_pres (cfg : SG.SpecConfig) (stack : List String) (g : SG.SpecGraph) :
    ∀ s : SG.Stmt,
      (∀ x ∈ g.edges, x ∈ (SG.extStmt cfg stack g s).edges) ∧
      (∀ n ∈ g.nodes, n ∈ (SG.extStmt cfg stack g s).nodes) ∧
      (∀ i ∈ g.sinkOrder, i ∈ (SG.extStmt cfg stack g s).sinkOrder) ∧
      (SG.SinkLabelsOk g → SG.SinkLabelsOk (SG.extStmt cfg stack g s)) ∧
      (SG.SinkOrderOk g → SG.SinkOrderOk (SG.extStmt cfg stack g s)) := by
  intro s
  cases s with
  | functionDef nm body decs =>
    simp only [SG.extStmt]
    cases hroute : SG.routeOf cfg decs with
    | none =>
      simp only
      have hb := SG.extStmts_pres cfg (nm :: stack) (SG.addNode g (.fn nm) nm) body
      refine ⟨?_, ?_, ?_, ?_, ?_⟩
      · exact fun x hx => hb.1 x (by rw [SG.addNode_edges]; exact hx)
      · exact fun n hn => hb.2.1 n (SG.addNode_nodes_mono _ _ _ _ hn)
      · exact fun i hi => hb.2.2.1 i (by rw [SG.addNode_sinkOrder]; exact hi)
      · exact fun h => hb.2.2.2.1 (SG.addNode_labels _ _ _ h (by intro x hx; cases hx))
      · exact fun h => hb.2.2.2.2 (SG.addNode_orderok _ _ _ h)
    | some path =>
      simp only
      split
      · next hint =>
        have hb := SG.extStmts_pres cfg (nm :: stack)
          (SG.addEdge (SG.addNode (SG.addNode g (.fn nm) nm) (.entry nm) path)
            (.entry nm, .fn nm)) body
        refine ⟨?_, ?_, ?_, ?_, ?_⟩
        · exact fun x hx => hb.1 x (SG.addEdge_edges_mono _ _ _
            (by rw [SG.addNode_edges, SG.addNode_edges]; exact hx))
        · exact fun n hn => hb.2.1 n (by
            rw [SG.addEdge_nodes]
            exact SG.addNode_nodes_mono _ _ _ _ (SG.addNode_nodes_mono _ _ _ _ hn))
        · exact fun i hi => hb.2.2.1 i (by
            rw [SG.addEdge_sinkOrder, SG.addNode_sinkOrder, SG.addNode_sinkOrder]
            exact hi)
        · exact fun h => hb.2.2.2.1 (SG.addEdge_labels _ _
            (SG.addNode_labels _ _ _ (SG.addNode_labels _ _ _ h
              (by intro x hx; cases hx)) (by intro x hx; cases hx)))
        · exact fun h => hb.2.2.2.2 (SG.addEdge_orderok _ _
            (SG.addNode_orderok _ _ _ (SG.addNode_orderok _ _ _ h)))
      · next hint =>
        have hb := SG.extStmts_pres cfg (nm :: stack)
          (SG.addEdge (SG.addEdge (SG.addNode (SG.addNode g (.fn nm) nm) (.entry nm) path)
            (.entry nm, .fn nm)) (.origin, .entry nm)) body
        refine ⟨?_, ?_, ?_, ?_, ?_⟩
        · exact fun x hx => hb.1 x (SG.addEdge_edges_mono _ _ _ (SG.addEdge_edges_mono _ _ _
            (by rw [SG.addNode_edges, SG.addNode_edges]; exact hx)))
        · exact fun n hn => hb.2.1 n (by
            rw [SG.addEdge_nodes, SG.addEdge_nodes]
            exact SG.addNode_nodes_mono _ _ _ _ (SG.addNode_nodes_mono _ _ _ _ hn))
        · exact fun i hi => hb.2.2.1 i (by
            rw [SG.addEdge_sinkOrder, SG.addEdge_sinkOrder, SG.addNode_sinkOrder,
              SG.addNode_sinkOrder]
            exact hi)
        · exact fun h => hb.2.2.2.1 (SG.addEdge_labels _ _ (SG.addEdge_labels _ _
            (SG.addNode_labels _ _ _ (SG.addNode_labels _ _ _ h
              (by intro x hx; cases hx)) (by intro x hx; cases hx))))
        · exact fun h => hb.2.2.2.2 (SG.addEdge_orderok _ _ (SG.addEdge_orderok _ _
            (SG.addNode_orderok _ _ _ (SG.addNode_orderok _ _ _ h))))
  | exprStmt e =>
    simp only [SG.extStmt]
    exact SG.extExpr_pres cfg stack g e

theorem SG.extStmts_pres (cfg : SG.SpecConfig) (stack : List String) (g : SG.SpecGraph) :
    ∀ ss : List SG.Stmt,
      (∀ x ∈ g.edges, x ∈ (SG.extStmts cfg stack g ss).edges) ∧
      (∀ n ∈ g.nodes, n ∈ (SG.extStmts cfg stack g ss).nodes) ∧
      (∀ i ∈ g.sinkOrder, i ∈ (SG.extStmts cfg stack g ss).sinkOrder) ∧
      (SG.SinkLabelsOk g → SG.SinkLabelsOk (SG.extStmts cfg stack g ss)) ∧
      (SG.SinkOrderOk g → SG.SinkOrderOk (SG.extStmts cfg stack g ss)) := by
  intro ss
  cases ss with
  | nil =>
    exact ⟨fun x hx => hx, fun n hn => hn, fun i hi => hi, fun h => h, fun h => h⟩
  | cons s rest =>
    simp only [SG.extStmts]
    have hs := SG.extStmt_pres cfg stack g s
    have hr := SG.extStmts_pres cfg stack (SG.extStmt cfg stack g s) rest
    refine ⟨?_, ?_, ?_, ?_, ?_⟩
    · exact fun x hx => hr.1 x (hs.1 x hx)
    · exact fun n hn => hr.2.1 n (hs.2.1 n hn)
    · exact fun i hi => hr.2.2.1 i (hs.2.2.1 i hi)
    · exact fun h => hr.2.2.2.1 (hs.2.2.2.1 h)
    · exact fun h => hr.2.2.2.2 (hs.2.2.2.2 h)

end

mutual

theorem SG.extExpr_sink (cfg : SG.SpecConfig) (encl : String) (rest : List String)
    (s : String) :
    ∀ (g : SG.SpecGraph) (e : SG.Expr), SG.exprCallsSink s e = true →
      cfg.sinkNames.contains s = true →
      ((.fn encl, .sink s) ∈ (SG.extExpr cfg (encl :: rest) g e).edges ∧
       NodeId.sink s ∈ (SG.extExpr cfg (encl :: rest) g e).sinkOrder ∧
       ∃ n, n ∈ (SG.extExpr cfg (encl :: rest) g e).nodes ∧ n.id = .sink s) := by
  intro g e hcall hmem
  cases e with
  | call f args =>
    simp only [SG.exprCallsSink, Bool.or_eq_true] at hcall
    simp only [SG.extExpr]
    rcases hcall with (hres | hf) | hargs
    · have hEq : SG.resolvedName f = some s := of_decide_eq_true hres
      have hstep : (.fn encl, .sink s) ∈ (SG.sinkStep cfg (encl :: rest) g f).edges ∧
          NodeId.sink s ∈ (SG.sinkStep cfg (encl :: rest) g f).sinkOrder ∧
          ∃ n, n ∈ (SG.sinkStep cfg (encl :: rest) g f).nodes ∧ n.id = .sink s := by
        unfold SG.sinkStep
        rw [hEq]
        simp only
        rw [if_pos hmem]
        refine ⟨?_, SG.addSinkOrder_self _ _, ?_⟩
        · rw [SG.addSinkOrder_edges]
          exact SG.addEdge_self _ _
        · rw [SG.addSinkOrder_nodes, SG.addEdge_nodes]
          exact SG.addNode_mem_id _ _ _
      have hf2 := SG.extExpr_pres cfg (encl :: rest) (SG.sinkStep cfg (encl :: rest) g f) f
      have ha2 := SG.extExprs_pres cfg (encl :: rest)
        (SG.extExpr cfg (encl :: rest) (SG.sinkStep cfg (encl :: rest) g f) f) args
      refine ⟨ha2.1 _ (hf2.1 _ hstep.1), ha2.2.2.1 _ (hf2.2.2.1 _ hstep.2.1), ?_⟩
      rcases hstep.2.2 with ⟨n, hn, hid⟩
      exact ⟨n, ha2.2.1 n (hf2.2.1 n hn), hid⟩
    · have hrec := SG.extExpr_sink cfg encl rest s (SG.sinkStep cfg (encl :: rest) g f) f hf hmem
      have ha2 := SG.extExprs_pres cfg (encl :: rest)
        (SG.extExpr cfg (encl :: rest) (SG.sinkStep cfg (encl :: rest) g f) f) args
      refine ⟨ha2.1 _ hrec.1, ha2.2.2.1 _ hrec.2.1, ?_⟩
      rcases hrec.2.2 with ⟨n, hn, hid⟩
      exact ⟨n, ha2.2.1 n hn, hid⟩
    · exact SG.extExprs_sink cfg encl rest s
        (SG.extExpr cfg (encl :: rest) (SG.sinkStep cfg (encl :: rest) g f) f) args hargs hmem
  | attr v a =>
    simp only [SG.exprCallsSink] at hcall
    simp only [SG.extExpr]
    exact SG.extExpr_sink cfg encl rest s g v hcall hmem
  | name i => simp [SG.exprCallsSink] at hcall
  | constant c => simp [SG.exprCallsSink] at hcall

theorem SG.extExprs_sink (cfg : SG.SpecConfig) (encl : String) (rest : List String)
    (s : String) :
    ∀ (g : SG.SpecGraph) (es : List SG.Expr), SG.exprsCallSink s es = true →
      cfg.sinkNames.contains s = true →
      ((.fn encl, .sink s) ∈ (SG.extExprs cfg (encl :: rest) g es).edges ∧
       NodeId.sink s ∈ (SG.extExprs cfg (encl :: rest) g es).sinkOrder ∧
       ∃ n, n ∈ (SG.extExprs cfg (encl :: rest) g es).nodes ∧ n.id = .sink s) := by
  intro g es hcall hmem
  cases es with
  | nil => simp [SG.exprsCallSink] at hcall
  | cons e tl =>
    simp only [SG.exprsCallSink, Bool.or_eq_true] at hcall
    simp only [SG.extExprs]
    rcases hcall with he | htl
    · have hrec := SG.extExpr_sink cfg encl rest s g e he hmem
      have ht2 := SG.extExprs_pres cfg (encl :: rest) (SG.extExpr cfg (encl :: rest) g e) tl
      refine ⟨ht2.1 _ hrec.1, ht2.2.2.1 _ hrec.2.1, ?_⟩
      rcases hrec.2.2 with ⟨n, hn, hid⟩
      exact ⟨n, ht2.2.1 n hn, hid⟩
    · exact SG.extExprs_sink cfg encl rest s (SG.extExpr cfg (encl :: rest) g e) tl htl hmem

end

namespace SG

theorem extStmts_sink (cfg : SpecConfig) (encl : String) (rest : List String)
    (s : String) :
    ∀ (body : List Stmt) (g : SpecGraph), stmtsDirectSink s body = true →
      cfg.sinkNames.contains s = true →
      ((.fn encl, .sink s) ∈ (extStmts cfg (encl :: rest) g body).edges ∧
       NodeId.sink s ∈ (extStmts cfg (encl :: rest) g body).sinkOrder ∧
       ∃ n, n ∈ (extStmts cfg (encl :: rest) g body).nodes ∧ n.id = .sink s) := by
  intro body
  induction body with
  | nil => intro g h; simp [stmtsDirectSink] at h
  | cons st tl ih =>
    intro g hds hmem
    simp only [stmtsDirectSink, Bool.or_eq_true] at hds
    simp only [extStmts]
    rcases hds with hh | ht
    · cases st with
      | functionDef nm b d => simp [stmtDirectSink] at hh
      | exprStmt e =>
        have hrec := extExpr_sink cfg encl rest s g e (by simpa [stmtDirectSink] using hh) hmem
        have ht2 := extStmts_pres cfg (encl :: rest) (extStmt cfg (encl :: rest) g (.exprStmt e)) tl
        have hgoal : extStmt cfg (encl :: rest) g (.exprStmt e) =
            extExpr cfg (encl :: rest) g e := by simp [extStmt]
        rw [hgoal]
        refine ⟨?_, ?_, ?_⟩
        · exact (extStmts_pres cfg (encl :: rest) _ tl).1 _ hrec.1
        · exact (extStmts_pres cfg (encl :: rest) _ tl).2.2.1 _ hrec.2.1
        · rcases hrec.2.2 with ⟨n, hn, hid⟩
          exact ⟨n, (extStmts_pres cfg (encl :: rest) _ tl).2.1 n hn, hid⟩
    · exact ih (extStmt cfg (encl :: rest) g st) ht hmem

end SG

mutual

theorem SG.extStmt_occ {stmt : SG.Stmt} {nm : String} {body : List SG.Stmt}
    {decs : List SG.Expr} (hocc : SG.FnInStmt stmt nm body decs) :
    ∀ (cfg : SG.SpecConfig) (stack : List String) (g : SG.SpecGraph) (s : String),
      SG.stmtsDirectSink s body = true → cfg.sinkNames.contains s = true →
      (((.fn nm, .sink s) ∈ (SG.extStmt cfg stack g stmt).edges ∧
        NodeId.sink s ∈ (SG.extStmt cfg stack g stmt).sinkOrder ∧
        ∃ n, n ∈ (SG.extStmt cfg stack g stmt).nodes ∧ n.id = .sink s) ∧
       (∀ path, SG.routeOf cfg decs = some path →
         ((.entry nm, .fn nm) ∈ (SG.extStmt cfg stack g stmt).edges ∧
          (SG.isInternal cfg path = false →
            (.origin, .entry nm) ∈ (SG.extStmt cfg stack g stmt).edges)))) := by
  cases hocc with
  | here nm body decs =>
    intro cfg stack g s hds hmem
    simp only [SG.extStmt]
    cases hroute : SG.routeOf cfg decs with
    | none =>
      simp only
      refine ⟨SG.extStmts_sink cfg nm stack s body _ hds hmem, ?_⟩
      intro path hpath
      cases hpath
    | some path0 =>
      simp only
      constructor
      · split
        · exact SG.extStmts_sink cfg nm stack s body _ hds hmem
        · exact SG.extStmts_sink cfg nm stack s body _ hds hmem
      · intro path hpath
        cases hpath
        split
        · next hint =>
          constructor
          · exact (SG.extStmts_pres cfg (nm :: stack) _ body).1 _ (SG.addEdge_self _ _)
          · intro hpub
            rw [hint] at hpub
            cases hpub
        · next hint =>
          constructor
          · exact (SG.extStmts_pres cfg (nm :: stack) _ body).1 _
              (SG.addEdge_edges_mono _ _ _ (SG.addEdge_self _ _))
          · intro hpub
            exact (SG.extStmts_pres cfg (nm :: stack) _ body).1 _ (SG.addEdge_self _ _)
  | inBody nm' body' decs' hin =>
    intro cfg stack g s hds hmem
    simp only [SG.extStmt]
    exact SG.extStmts_occ hin cfg (nm' :: stack) _ s hds hmem

theorem SG.extStmts_occ {l : List SG.Stmt} {nm : String} {body : List SG.Stmt}
    {decs : List SG.Expr} (hocc : SG.FnInStmts l nm body decs) :
    ∀ (cfg : SG.SpecConfig) (stack : List String) (g : SG.SpecGraph) (s : String),
      SG.stmtsDirectSink s body = true → cfg.sinkNames.contains s = true →
      (((.fn nm, .sink s) ∈ (SG.extStmts cfg stack g l).edges ∧
        NodeId.sink s ∈ (SG.extStmts cfg stack g l).sinkOrder ∧
        ∃ n, n ∈ (SG.extStmts cfg stack g l).nodes ∧ n.id = .sink s) ∧
       (∀ path, SG.routeOf cfg decs = some path →
         ((.entry nm, .fn nm) ∈ (SG.extStmts cfg stack g l).edges ∧
          (SG.isInternal cfg path = false →
            (.origin, .entry nm) ∈ (SG.extStmts cfg stack g l).edges)))) := by
  cases hocc with
  | head hs =>
    intro cfg stack g s hds hmem
    simp only [SG.extStmts]
    next s0 tl =>
    have hrec := SG.extStmt_occ hs cfg stack g s hds hmem
    have hp := SG.extStmts_pres cfg stack (SG.extStmt cfg stack g s0) tl
    refine ⟨⟨hp.1 _ hrec.1.1, hp.2.2.1 _ hrec.1.2.1, ?_⟩, ?_⟩
    · rcases hrec.1.2.2 with ⟨n, hn, hid⟩
      exact ⟨n, hp.2.1 n hn, hid⟩
    · intro path hpath
      refine ⟨hp.1 _ (hrec.2 path hpath).1, fun hpub => hp.1 _ ((hrec.2 path hpath).2 hpub)⟩
  | tail s0 hin =>
    intro cfg stack g s hds hmem
    simp only [SG.extStmts]
    exact SG.extStmts_occ hin cfg stack _ s hds hmem

end

namespace SG

theorem initGraph_labels : SinkLabelsOk initGraph := by
  intro n hn x hx
  rcases List.mem_singleton.mp hn with rfl
  cases hx

theorem initGraph_orderok : SinkOrderOk initGraph := by
  intro i hi
  cases hi

/-- C6: in the structural engine modelled from the spec, every function
whose body directly performs a call resolving to a configured sink name
yields a Sink node (labeled by that name) and a `Function -> Sink` edge
in the extracted graph, plus a discovery-order entry — with no
assumption that the function carries a route annotation. -/
theorem claim_C6 (cfg : SpecConfig) (prog : List Stmt) (nm : String) (body : List Stmt)
    (decs : List Expr) (s : String)
    (hocc : FnInStmts prog nm body decs)
    (hsink : stmtsDirectSink s body = true)
    (hmem : cfg.sinkNames.contains s = true) :
    (NodeId.fn nm, NodeId.sink s) ∈ (specExtract cfg prog).edges ∧
    NodeId.sink s ∈ (specExtract cfg prog).sinkOrder ∧
    ∃ n, n ∈ (specExtract cfg prog).nodes ∧ n.id = NodeId.sink s ∧ n.label = s := by
  have h := extStmts_occ hocc cfg [] initGraph s hsink hmem
  have hlab : SinkLabelsOk (specExtract cfg prog) :=
    (extStmts_pres cfg [] initGraph prog).2.2.2.1 initGraph_labels
  refine ⟨h.1.1, h.1.2.1, ?_⟩
  rcases h.1.2.2 with ⟨n, hn, hid⟩
  exact ⟨n, hn, hid, hlab n hn s hid⟩

theorem claim_C6_witness :
    (NodeId.fn "helper", NodeId.sink "yaml.load") ∈
      (specExtract specCfg progHelperLoad).edges ∧
    NodeId.sink "yaml.load" ∈ (specExtract specCfg progHelperLoad).sinkOrder ∧
    ∃ n, n ∈ (specExtract specCfg progHelperLoad).nodes ∧
      n.id = NodeId.sink "yaml.load" ∧ n.label = "yaml.load" :=
  claim_C6 specCfg progHelperLoad "helper"
    [.exprStmt (.call (.attr (.name "yaml") "load") [.name "d"])] [] "yaml.load"
    (.head (.here _ _ _)) (by decide) (by decide)

end SG

namespace SG

theorem succs_mem (edges : List (NodeId × NodeId)) (u v : NodeId)
    (h : (u, v) ∈ edges) : v ∈ succs edges u := by
  unfold succs
  exact List.mem_map.mpr ⟨(u, v), List.mem_filter.mpr ⟨h, by simp⟩, rfl⟩

theorem foldr_path_some (edges : List (NodeId × NodeId)) (t : NodeId) (k : Nat)
    (u : NodeId) :
    ∀ (l : List NodeId) (p : List NodeId),
      (l.foldr
        (fun v acc =>
          match pathsFrom edges t k v with
          | some q => some (u :: q)
          | none => acc)
        none) = some p →
      ∃ v ∈ l, ∃ q, pathsFrom edges t k v = some q ∧ p = u :: q := by
  intro l
  induction l with
  | nil => intro p h; cases h
  | cons v0 tl ih =>
    intro p h
    simp only [List.foldr_cons] at h
    cases hv0 : pathsFrom edges t k v0 with
    | some q =>
      simp only [hv0] at h
      cases h
      exact ⟨v0, List.mem_cons_self _ _, q, hv0, rfl⟩
    | none =>
      simp only [hv0] at h
      obtain ⟨v, hv, q, hq, hp⟩ := ih p h
      exact ⟨v, List.mem_cons_of_mem _ hv, q, hq, hp⟩

theorem foldr_path_isSome (edges : List (NodeId × NodeId)) (t : NodeId) (k : Nat)
    (u : NodeId) :
    ∀ (l : List NodeId) (v : NodeId), v ∈ l →
      (pathsFrom edges t k v).isSome = true →
      ((l.foldr
        (fun w acc =>
          match pathsFrom edges t k w with
          | some q => some (u :: q)
          | none => acc)
        none).isSome) = true := by
  intro l
  induction l with
  | nil => intro v hv; cases hv
  | cons v0 tl ih =>
    intro v hv hsome
    simp only [List.foldr_cons]
    cases hv0 : pathsFrom edges t k v0 with
    | some q => simp
    | none =>
      simp only [hv0]
      rcases List.mem_cons.mp hv with rfl | hv'
      · rw [hv0] at hsome; cases hsome
      · exact ih v hv' hsome

theorem pathsFrom_sound (edges : List (NodeId × NodeId)) (t : NodeId) :
    ∀ (k : Nat) (u : NodeId) (p : List NodeId), pathsFrom edges t k u = some p →
      p.head? = some u ∧ p.getLast? = some t := by
  intro k
  induction k with
  | zero =>
    intro u p h
    simp only [pathsFrom] at h
    split at h
    · next ht =>
      cases h
      have : u = t := of_decide_eq_true ht
      subst this
      exact ⟨rfl, rfl⟩
    · cases h
  | succ k ih =>
    intro u p h
    simp only [pathsFrom] at h
    split at h
    · next ht =>
      cases h
      have : u = t := of_decide_eq_true ht
      subst this
      exact ⟨rfl, rfl⟩
    · next ht =>
      obtain ⟨v, hv, q, hq, rfl⟩ := foldr_path_some edges t k u _ p h
      have hs := ih v q hq
      refine ⟨rfl, ?_⟩
      rcases q with _ | ⟨q0, qtl⟩
      · cases hs.1
      · simpa [List.getLast?_cons_cons] using hs.2

theorem pathsFrom_complete (edges : List (NodeId × NodeId)) {u t : NodeId} {j : Nat}
    (h : Reach edges u t j) :
    ∀ k, j ≤ k → (pathsFrom edges t k u).isSome = true := by
  induction h with
  | refl w =>
    intro k _
    cases k with
    | zero => simp [pathsFrom]
    | succ k2 => simp [pathsFrom]
  | @step u1 v1 t1 k1 he hreach ih =>
    intro k hk
    cases k with
    | zero => omega
    | succ k2 =>
      simp only [pathsFrom]
      by_cases hut : (u1 == t1) = true
      · simp [hut]
      · rw [if_neg hut]
        exact foldr_path_isSome edges _ k2 _ _ _ (succs_mem edges _ _ he)
          (ih k2 (by omega))

theorem shortestSearch_isSome (edges : List (NodeId × NodeId)) (t u : NodeId) :
    ∀ (bound k : Nat), k ≤ bound → (pathsFrom edges t k u).isSome = true →
      (shortestSearch edges t u bound).isSome = true := by
  intro bound
  induction bound with
  | zero =>
    intro k hk h
    have : k = 0 := by omega
    subst this
    exact h
  | succ b ih =>
    intro k hk h
    simp only [shortestSearch]
    cases hss : shortestSearch edges t u b with
    | some p => simp
    | none =>
      simp only
      by_cases hkb : k ≤ b
      · have := ih k hkb h
        rw [hss] at this
        cases this
      · have : k = b + 1 := by omega
        subst this
        exact h

theorem shortestSearch_sound (edges : List (NodeId × NodeId)) (t u : NodeId) :
    ∀ (bound : Nat) (p : List NodeId), shortestSearch edges t u bound = some p →
      ∃ k, pathsFrom edges t k u = some p := by
  intro bound
  induction bound with
  | zero => intro p h; exact ⟨0, h⟩
  | succ b ih =>
    intro p h
    simp only [shortestSearch] at h
    cases hss : shortestSearch edges t u b with
    | some q =>
      simp only [hss, Option.some.injEq] at h
      subst h
      exact ih _ hss
    | none =>
      simp only [hss] at h
      exact ⟨b + 1, h⟩

theorem firstReach_sound (edges : List (NodeId × NodeId)) (bound : Nat) :
    ∀ (l : List NodeId) (p : List NodeId), firstReach edges bound l = some p →
      ∃ t ∈ l, shortestSearch edges t .origin bound = some p := by
  intro l
  induction l with
  | nil => intro p h; cases h
  | cons s tl ih =>
    intro p h
    simp only [firstReach] at h
    cases hss : shortestSearch edges s .origin bound with
    | some q =>
      simp only [hss, Option.some.injEq] at h
      subst h
      exact ⟨s, List.mem_cons_self _ _, hss⟩
    | none =>
      simp only [hss] at h
      obtain ⟨t, ht, h2⟩ := ih p h
      exact ⟨t, List.mem_cons_of_mem _ ht, h2⟩

theorem firstReach_isSome (edges : List (NodeId × NodeId)) (bound : Nat) :
    ∀ (l : List NodeId) (t : NodeId), t ∈ l →
      (shortestSearch edges t .origin bound).isSome = true →
      (firstReach edges bound l).isSome = true := by
  intro l
  induction l with
  | nil => intro t ht; cases ht
  | cons s tl ih =>
    intro t ht hsome
    simp only [firstReach]
    cases hss : shortestSearch edges s .origin bound with
    | some q => simp
    | none =>
      simp only
      rcases List.mem_cons.mp ht with rfl | ht'
      · rw [hss] at hsome; cases hsome
      · exact ih t ht' hsome

theorem three_mem_length {α : Type} [DecidableEq α] {a b c : α} {l : List α}
    (ha : a ∈ l) (hb : b ∈ l) (hc : c ∈ l) (hab : a ≠ b) (hac : a ≠ c) (hbc : b ≠ c) :
    3 ≤ l.length := by
  have hsub : ({a, b, c} : Finset α) ⊆ l.toFinset := by
    intro x hx
    rw [List.mem_toFinset]
    rcases Finset.mem_insert.mp hx with rfl | hx2
    · exact ha
    rcases Finset.mem_insert.mp hx2 with rfl | hx3
    · exact hb
    · rw [Finset.mem_singleton] at hx3
      subst hx3
      exact hc
  have hcard : ({a, b, c} : Finset α).card = 3 := by
    rw [Finset.card_insert_of_not_mem (by simp [hab, hac]),
      Finset.card_insert_of_not_mem (by simp [hbc]), Finset.card_singleton]
  calc 3 = ({a, b, c} : Finset α).card := hcard.symm
    _ ≤ l.toFinset.card := Finset.card_le_card hsub
    _ ≤ l.length := l.toFinset_card_le

end SG

namespace SG

/-- C1: in the structural engine modelled from the spec, a program
containing a function whose route decorator path matches no internal
prefix and whose body directly calls a configured sink decides BLOCK,
and the evidence path starts at the Origin node and ends at a Sink
node (the first sink found reachable, per the spec's
first-discovered-wins rule). -/
theorem claim_C1 (cfg : SpecConfig) (prog : List Stmt) (nm : String) (body : List Stmt)
    (decs : List Expr) (s : String) (path : String)
    (hocc : FnInStmts prog nm body decs)
    (hsink : stmtsDirectSink s body = true)
    (hmem : cfg.sinkNames.contains s = true)
    (hroute : routeOf cfg decs = some path)
    (hpub : isInternal cfg path = false) :
    (specDecide (specExtract cfg prog)).outcome = "BLOCK" ∧
    ∃ p, (specDecide (specExtract cfg prog)).evidence = some p ∧
      p.head? = some NodeId.origin ∧ ∃ x, p.getLast? = some (NodeId.sink x) := by
  have h := extStmts_occ hocc cfg [] initGraph s hsink hmem
  have hroute2 := h.2 path hroute
  have hE1 : (NodeId.origin, NodeId.entry nm) ∈ (specExtract cfg prog).edges :=
    hroute2.2 hpub
  have hE2 : (NodeId.entry nm, NodeId.fn nm) ∈ (specExtract cfg prog).edges := hroute2.1
  have hE3 : (NodeId.fn nm, NodeId.sink s) ∈ (specExtract cfg prog).edges := h.1.1
  have hS : NodeId.sink s ∈ (specExtract cfg prog).sinkOrder := h.1.2.1
  have hReach : Reach (specExtract cfg prog).edges NodeId.origin (NodeId.sink s) 3 :=
    .step hE1 (.step hE2 (.step hE3 (.refl _)))
  have hlen : 3 ≤ (specExtract cfg prog).edges.length := by
    refine three_mem_length hE1 hE2 hE3 ?_ ?_ ?_
    · intro hEq; rw [Prod.ext_iff] at hEq; cases hEq.1
    · intro hEq; rw [Prod.ext_iff] at hEq; cases hEq.1
    · intro hEq; rw [Prod.ext_iff] at hEq; cases hEq.1
  have hpf := pathsFrom_complete (specExtract cfg prog).edges hReach
    (specExtract cfg prog).edges.length hlen
  have hss := shortestSearch_isSome (specExtract cfg prog).edges (NodeId.sink s)
    NodeId.origin (specExtract cfg prog).edges.length (specExtract cfg prog).edges.length
    (Nat.le_refl _) hpf
  have hfr := firstReach_isSome (specExtract cfg prog).edges
    (specExtract cfg prog).edges.length (specExtract cfg prog).sinkOrder
    (NodeId.sink s) hS hss
  have hook : SinkOrderOk (specExtract cfg prog) :=
    (extStmts_pres cfg [] initGraph prog).2.2.2.2 initGraph_orderok
  unfold specDecide
  cases hfr2 : firstReach (specExtract cfg prog).edges
      (specExtract cfg prog).edges.length (specExtract cfg prog).sinkOrder with
  | none => rw [hfr2] at hfr; cases hfr
  | some p =>
    refine ⟨rfl, p, rfl, ?_, ?_⟩
    · obtain ⟨t, ht, hsst⟩ := firstReach_sound _ _ _ _ hfr2
      obtain ⟨k, hpk⟩ := shortestSearch_sound _ _ _ _ _ hsst
      exact (pathsFrom_sound _ _ _ _ _ hpk).1
    · obtain ⟨t, ht, hsst⟩ := firstReach_sound _ _ _ _ hfr2
      obtain ⟨k, hpk⟩ := shortestSearch_sound _ _ _ _ _ hsst
      obtain ⟨x, rfl⟩ := hook t ht
      exact ⟨x, (pathsFrom_sound _ _ _ _ _ hpk).2⟩

theorem claim_C1_witness :
    (specDecide (specExtract specCfg progPublicHack)).outcome = "BLOCK" ∧
    ∃ p, (specDecide (specExtract specCfg progPublicHack)).evidence = some p ∧
      p.head? = some NodeId.origin ∧ ∃ x, p.getLast? = some (NodeId.sink x) :=
  claim_C1 specCfg progPublicHack "hack_me"
    [.exprStmt (.call (.attr (.name "subprocess") "call") [.name "cmd"])]
    [.call (.attr (.name "app") "get") [.constant "/public/hack"]]
    "subprocess.call" "/public/hack"
    (.head (.here _ _ _)) (by decide) (by decide) (by decide) (by decide)

end SG
